import Mathlib

/-!
Shallow embedding of the temporal symptom-network pipeline of the
tms-dashboard-demo repository, and proofs checking the specification's
claims against it.

The embedded code comes from:
  * `services/network_analysis.py` — `fit_multilevel_model`,
    `construct_network`, `plot_network`, `generate_person_specific_network`;
  * `services/network_visualization.py` — the same four functions in a
    slightly different variant;
  * `analyze_network.py` — `fit_multilevel_models`, `build_coef_matrix`.

Modelling conventions:
  * pandas data frames are row-major tables of cells; `NaN` is the
    explicit `Cell.na` marker; numbers are rationals;
  * in-place mutation of a frame (the Python code assigns new lag columns
    onto its argument) is rendered as explicit state passing: every
    function that mutates its frame also returns the frame as it stands
    after the call;
  * a Python exception that can escape a function is rendered as
    `Except PyError`;
  * the two numerical externals (statsmodels `mixedlm(...).fit()` and
    networkx `spring_layout(G, seed=42)`) are not repository code; they
    are taken as explicit function parameters (`FitOracle`, `LayoutFn`),
    so every theorem quantifies over their behaviour.  A `FitOracle`
    returning `none` models the fitting routine raising or failing.
-/

/-- A cell of a pandas data frame: a rational number, a string, or the
absent-value marker `NaN`. -/
inductive Cell where
  | num (q : ℚ)
  | str (s : String)
  | na
deriving DecidableEq, Repr

/-- Is this cell the absent-value marker? -/
def Cell.isNA : Cell → Bool
  | Cell.na => true
  | _ => false

/-- A pandas data frame: a list of column names and row-major data.
Each row is a list of cells aligned positionally with `cols`. -/
structure Frame where
  cols : List String
  rows : List (List Cell)
deriving DecidableEq, Repr

/-- Index of the first occurrence of a name in a name list. -/
def idxOfCol (c : String) : List String → Option Nat
  | [] => none
  | d :: rest => if d == c then some 0 else (idxOfCol c rest).map (fun j => j + 1)

/-- Position of a column name in the frame, `none` when absent
(a lookup of an absent column raises `KeyError` in pandas). -/
def Frame.colIdx (f : Frame) (c : String) : Option Nat :=
  idxOfCol c f.cols

/-- Column extraction `df[c]`: the series of cells of column `c`,
or `none` (modelling `KeyError`) when the column does not exist. -/
def Frame.getCol (f : Frame) (c : String) : Option (List Cell) :=
  (f.colIdx c).map (fun j => f.rows.map (fun r => r.getD j Cell.na))

/-- Column assignment `df[c] = s`: replace column `c` when it exists,
otherwise append it as a new last column. -/
def Frame.setCol (f : Frame) (c : String) (s : List Cell) : Frame :=
  match f.colIdx c with
  | some j => { f with rows := (f.rows.zip s).map (fun p => p.1.set j p.2) }
  | none =>
      { cols := f.cols ++ [c],
        rows := (f.rows.zip s).map (fun p => p.1 ++ [p.2]) }

/-- The series `s.shift(1)`: every value moves one row down, the first
row becomes absent, the last value is dropped; an empty series stays
empty. -/
def shift1 : List Cell → List Cell
  | [] => []
  | x :: xs => Cell.na :: (x :: xs).dropLast

/-- The frame `df.dropna()`: keep exactly the rows with no absent cell. -/
def Frame.dropna (f : Frame) : Frame :=
  { f with rows := f.rows.filter (fun r => !(r.any Cell.isNA)) }

/-- The lag-column loop shared by every estimator in the repository:
`for predictor in predictors: df[predictor + "_lag"] = df[predictor].shift(1)`.
Returns the frame as mutated so far together with the first predictor
whose column lookup raised `KeyError`, if any. -/
def addLagCols (f : Frame) (preds : List String) : Frame × Option String :=
  match preds with
  | [] => (f, none)
  | p :: rest =>
      match f.getCol p with
      | none => (f, some p)
      | some s => addLagCols (f.setCol (p ++ "_lag") (shift1 s)) rest

/-- Result of a successful statsmodels fit: the fitted parameters as an
ordered association list from parameter name to value (the embedding of
`result.params`). -/
structure FitResult where
  params : List (String × ℚ)
deriving DecidableEq, Repr

/-- The external numerical fitting routine
(`mixedlm(formula, df_model, groups=...).fit(...)`), abstracted: it
receives the post-dropna frame, the outcome symptom and the predictor
list, and either produces a `FitResult` or fails (`none` models any
exception raised by statsmodels, caught by the surrounding `try`). -/
def FitOracle : Type := Frame → String → List String → Option FitResult

/-- Does the string end in the four characters of the lag marker?
This is the predicate of the source's parameter filter, whose regex
matches names ending in the lag suffix; the test is phrased on the
character list so that it evaluates by kernel reduction. -/
def hasLagSuffix (s : String) : Bool :=
  s.data.reverse.take 4 == ['g', 'a', 'l', '_']

/-- A Python exception escaping an embedded function. -/
inductive PyError where
  | keyError (col : String)
deriving DecidableEq, Repr

/-- Embedding of `fit_multilevel_model` from `services/network_analysis.py`:
append a lag column per predictor onto the frame in place (a missing
predictor column raises `KeyError`), drop rows containing absent values,
fail fast with `None` when fewer than 5 rows remain, otherwise attempt
the mixed-effects fit whose outcome the oracle decides.  The second
component of the result is the input frame as mutated by the call. -/
def fit_multilevel_model (oracle : FitOracle) (df : Frame) (symptom : String)
    (predictors : List String) : Except PyError (Option FitResult × Frame) :=
  match addLagCols df predictors with
  | (_, some p) => Except.error (PyError.keyError p)
  | (df1, none) =>
      let df_model := df1.dropna
      if df_model.rows.length < 5 then
        Except.ok (none, df1)
      else
        Except.ok (oracle df_model symptom predictors, df1)

/-- Embedding of `fit_multilevel_model` from
`services/network_visualization.py`: identical to the
`network_analysis` variant except that it has no minimum-row check at
all — it always attempts the fit once the lag columns are in place. -/
def fit_multilevel_model_viz (oracle : FitOracle) (df : Frame) (symptom : String)
    (predictors : List String) : Except PyError (Option FitResult × Frame) :=
  match addLagCols df predictors with
  | (_, some p) => Except.error (PyError.keyError p)
  | (df1, none) =>
      Except.ok (oracle df1.dropna symptom predictors, df1)

/-- Embedding of `fit_multilevel_models` from `analyze_network.py`:
same lag/dropna preparation, no minimum-row check and no internal
`try`, so any failure (a missing column or a statsmodels exception)
escapes to the caller; `Except.error ()` stands for the escaping
exception.  The frame is returned as mutated, error or not, because
the caller's `except` clause observes the mutated frame. -/
def fit_multilevel_models (oracle : FitOracle) (df : Frame) (symptom : String)
    (predictors : List String) : Except Unit FitResult × Frame :=
  match addLagCols df predictors with
  | (df1, some _) => (Except.error (), df1)
  | (df1, none) =>
      match oracle df1.dropna symptom predictors with
      | some r => (Except.ok r, df1)
      | none => (Except.error (), df1)

/-- A coefficient matrix, embedding the pandas frame
`pd.DataFrame(index=symptoms, columns=symptoms, dtype=float)`:
`entries` is row-major and aligned positionally with `index` (rows =
outcomes) and `cols` (columns = predictors); a cell holds `none` for
the `NaN` absent-value marker. -/
structure CoefMatrix where
  index : List String
  cols : List String
  entries : List (List (Option ℚ))
deriving DecidableEq, Repr

/-- The freshly initialized all-absent coefficient matrix. -/
def initCoefMatrix (symptoms : List String) : CoefMatrix :=
  { index := symptoms, cols := symptoms,
    entries := symptoms.map (fun _ => symptoms.map (fun _ => (none : Option ℚ))) }

/-- Label-based cell update `coef_matrix.loc[outcome, predictor] = v`:
every cell whose row label equals `outcome` and column label equals
`predictor` is set (with distinct labels this is the single cell). -/
def CoefMatrix.set (M : CoefMatrix) (outcome predictor : String) (v : Option ℚ) :
    CoefMatrix :=
  { M with entries := (M.index.zip M.entries).map (fun p =>
      if p.1 = outcome then
        (M.cols.zip p.2).map (fun q => if q.1 = predictor then v else q.2)
      else p.2) }

/-- Label-based cell read `coef_matrix.loc[outcome, predictor]`: the cell
at the first row labelled `outcome` and first column labelled
`predictor`, `none` when no such labels exist. -/
def CoefMatrix.get (M : CoefMatrix) (outcome predictor : String) : Option ℚ :=
  match (M.index.zip M.entries).find? (fun p => p.1 == outcome) with
  | none => none
  | some p =>
      match (M.cols.zip p.2).find? (fun q => q.1 == predictor) with
      | none => none
      | some q => q.2

/-- A networkx `DiGraph`: nodes in insertion order, and directed edges
`(source, target, weight)`; edge keys `(source, target)` are unique. -/
structure Graph where
  nodes : List String
  edges : List (String × String × ℚ)
deriving DecidableEq, Repr

/-- The empty directed graph `nx.DiGraph()`. -/
def Graph.empty : Graph := { nodes := [], edges := [] }

/-- Absolute value of a rational, written so that it evaluates by
kernel reduction (the embedding of Python `abs`). -/
def ratAbs (q : ℚ) : ℚ := if q < 0 then -q else q

/-- Does the edge `e` have source `u` and target `v`? -/
def edgeKeyIs (u v : String) (e : String × String × ℚ) : Bool :=
  e.1 == u && e.2.1 == v

/-- networkx `G.add_node(n)`: append the node unless already present. -/
def Graph.addNode (G : Graph) (n : String) : Graph :=
  if n ∈ G.nodes then G else { G with nodes := G.nodes ++ [n] }

/-- networkx `G.add_edge(u, v, weight=w)`: ensure both endpoints are
nodes, then add the edge, replacing the weight when the edge already
exists. -/
def Graph.addEdge (G : Graph) (u v : String) (w : ℚ) : Graph :=
  let G1 := (G.addNode u).addNode v
  if G1.edges.any (edgeKeyIs u v) then
    { G1 with edges := G1.edges.map (fun e => if edgeKeyIs u v e then (u, v, w) else e) }
  else
    { G1 with edges := G1.edges ++ [(u, v, w)] }

/-- One cell step of the inner loop of `construct_network`: when the
cell is not absent and its absolute value meets the threshold, add the
directed edge predictor → symptom weighted by the cell value. -/
def processCell (threshold : ℚ) (symptom : String) (G : Graph)
    (q : String × Option ℚ) : Graph :=
  match q.2 with
  | some coef => if threshold ≤ ratAbs coef then G.addEdge q.1 symptom coef else G
  | none => G

/-- One row step of the outer loop of `construct_network`: add the row's
symptom as a node, then process every (predictor, cell) pair of the row. -/
def processRow (cols : List String) (threshold : ℚ) (G : Graph)
    (p : String × List (Option ℚ)) : Graph :=
  (cols.zip p.2).foldl (processCell threshold p.1) (G.addNode p.1)

/-- Embedding of `construct_network` (identical in
`services/network_analysis.py` and `services/network_visualization.py`):
iterate over the rows (outcomes) and columns (predictors) of the
coefficient matrix, adding one node per row symptom and one edge
predictor → outcome per non-absent cell whose absolute value is at
least the threshold. -/
def construct_network (M : CoefMatrix) (threshold : ℚ) : Graph :=
  (M.index.zip M.entries).foldl (processRow M.cols threshold) Graph.empty

/-- The external networkx `spring_layout(G, seed=42)` call, abstracted:
any fixed deterministic assignment of a 2D position to the nodes of a
graph. -/
def LayoutFn : Type := Graph → List (String × (ℚ × ℚ))

/-- Number of successors plus number of predecessors of a node, the
quantity `len(list(G.successors(n))) + len(list(G.predecessors(n)))`
computed by `plot_network` (edge keys are unique, so counting edges
counts neighbours). -/
def Graph.adjCount (G : Graph) (n : String) : Nat :=
  (G.edges.filter (fun e => e.1 == n)).length +
    (G.edges.filter (fun e => e.2.1 == n)).length

/-- The renderable figure produced by `plot_network`: the graph it was
drawn from, the node positions of the layout, and the per-node
connection counts used for colouring, plus the title. -/
structure Fig where
  title : String
  graph : Graph
  pos : List (String × (ℚ × ℚ))
  nodeAdjacencies : List Nat
deriving DecidableEq, Repr

/-- Embedding of `plot_network`: compute the seeded layout and the
per-node degree statistics and package them with the graph and title. -/
def plot_network (layoutFn : LayoutFn) (G : Graph) (title : String) : Fig :=
  { title := title,
    graph := G,
    pos := layoutFn G,
    nodeAdjacencies := G.nodes.map (fun n => G.adjCount n) }

/-- A stable ascending order on cells used by `sort_values`: numbers by
value, then strings lexicographically, with absent values last. -/
def cellLe : Cell → Cell → Bool
  | Cell.num a, Cell.num b => a ≤ b
  | Cell.num _, Cell.str _ => true
  | Cell.str a, Cell.str b => a ≤ b
  | Cell.str _, Cell.num _ => false
  | _, Cell.na => true
  | Cell.na, _ => false

/-- Stable insertion of a keyed row into an already sorted row list. -/
def insertRow (j : Nat) (r : List Cell) : List (List Cell) → List (List Cell)
  | [] => [r]
  | x :: xs =>
      if cellLe (x.getD j Cell.na) (r.getD j Cell.na) then
        x :: insertRow j r xs
      else r :: x :: xs

/-- Stable sort of rows by the cell in column position `j`. -/
def sortRowsBy (j : Nat) : List (List Cell) → List (List Cell)
  | [] => []
  | r :: rs => insertRow j r (sortRowsBy j rs)

/-- Embedding of `df.sort_values(c)`: a new frame (the original is left
untouched) with the rows ordered by column `c`; a missing sort column
raises `KeyError`. -/
def sort_values (f : Frame) (c : String) : Except PyError Frame :=
  match f.colIdx c with
  | none => Except.error (PyError.keyError c)
  | some j => Except.ok { f with rows := sortRowsBy j f.rows }

/-- Coefficient extraction of `generate_person_specific_network`: from a
successful fit, take `result.params.filter(regex=...)` restricted to the
lag parameters, and write `coef[p_lag]` into row `symptom`, column `p`,
for every predictor `p` whose lag parameter is present. -/
def storeStep (coef : List (String × ℚ)) (symptom : String) (M1 : CoefMatrix)
    (p : String) : CoefMatrix :=
  match coef.find? (fun pr => pr.1 == p ++ "_lag") with
  | some pr => M1.set symptom p (some pr.2)
  | none => M1

/-- The whole coefficient-extraction loop: fold `storeStep` over the
predictors, with `coef` = the lag-filtered parameters of the fit. -/
def storeCoefs (M : CoefMatrix) (symptom : String) (predictors : List String)
    (res : FitResult) : CoefMatrix :=
  predictors.foldl
    (storeStep (res.params.filter (fun pr => hasLagSuffix pr.1)) symptom) M

/-- The per-symptom model-fitting loop of `generate_person_specific_network`
in `services/network_analysis.py`: for each symptom, the predictors are
a copy of the symptom list with the symptom itself removed (the code
comment says "to avoid self-loops"); a successful fit stores the lag
coefficients into the symptom's row, a failed fit assigns the absent
marker across the row.  The frame is threaded through the iterations
because each fit mutates it in place. -/
def psnStep (oracle : FitOracle) (symptoms : List String)
    (acc : CoefMatrix × Frame) (symptom : String) :
    Except PyError (CoefMatrix × Frame) := do
  let predictors := symptoms.erase symptom
  let (result, df1) ← fit_multilevel_model oracle acc.2 symptom predictors
  match result with
  | some res => pure (storeCoefs acc.1 symptom predictors res, df1)
  | none => pure (predictors.foldl (fun M p => M.set symptom p none) acc.1, df1)

/-- The whole per-symptom loop: fold `psnStep` over the symptoms,
starting from the all-absent matrix and the sorted patient frame. -/
def buildCoefMatrixPSN (oracle : FitOracle) (df : Frame) (symptoms : List String) :
    Except PyError (CoefMatrix × Frame) :=
  symptoms.foldlM (psnStep oracle symptoms) (initCoefMatrix symptoms, df)

/-- Embedding of `generate_person_specific_network` from
`services/network_analysis.py`: sort the patient frame by timestamp
(into a fresh frame — `sort_values` copies), build the coefficient
matrix by per-symptom fits, threshold it into a network and plot it.
The second component of the result is the caller's frame as it stands
after the call; the function body never writes to it, so it is returned
as received. -/
def generate_person_specific_network (oracle : FitOracle) (layoutFn : LayoutFn)
    (patient_df : Frame) (patient_id : String) (symptoms : List String)
    (threshold : ℚ) : Except PyError (Fig × Frame) := do
  let df_patient ← sort_values patient_df "Timestamp"
  let (coef_matrix, _) ← buildCoefMatrixPSN oracle df_patient symptoms
  let G := construct_network coef_matrix threshold
  let fig := plot_network layoutFn G ("Réseau de Symptômes pour " ++ patient_id)
  pure (fig, patient_df)

/-- Row filter `df[df[c] == value]`: keep the rows whose cell in column
`c` equals the given string; a missing column raises `KeyError`. -/
def filterEq (f : Frame) (c : String) (value : String) : Except PyError Frame :=
  match f.colIdx c with
  | none => Except.error (PyError.keyError c)
  | some j =>
      Except.ok { f with rows := f.rows.filter (fun r => r.getD j Cell.na == Cell.str value) }

/-- Row update of `build_coef_matrix`: positional assignment
`coef_matrix.loc[symptom, symptoms] = values` writing one value per
column label in order. -/
def setRowVals (M : CoefMatrix) (symptom : String) (labels : List String)
    (vals : List (Option ℚ)) : CoefMatrix :=
  (labels.zip vals).foldl (fun M1 p => M1.set symptom p.1 p.2) M

/-- Embedding of `build_coef_matrix` from `analyze_network.py`: filter
the frame to the patient, sort by date, then for each symptom attempt a
fit with the full symptom list as predictors inside a `try`; success
writes the filtered lag parameter values across the row (a length
mismatch raises and is caught), while any caught exception writes the
number zero across the entire row. -/
def bcmStep (oracle : FitOracle) (symptoms : List String)
    (acc : CoefMatrix × Frame) (symptom : String) : CoefMatrix × Frame :=
  match fit_multilevel_models oracle acc.2 symptom symptoms with
  | (Except.ok res, df1) =>
      let vals := (res.params.filter (fun pr => hasLagSuffix pr.1)).map
        (fun pr => (some pr.2 : Option ℚ))
      if vals.length = symptoms.length then
        (setRowVals acc.1 symptom symptoms vals, df1)
      else
        (setRowVals acc.1 symptom symptoms (symptoms.map (fun _ => some 0)), df1)
  | (Except.error _, df1) =>
      (setRowVals acc.1 symptom symptoms (symptoms.map (fun _ => some 0)), df1)

/-- The whole per-symptom loop of `build_coef_matrix`: fold `bcmStep`
over the symptoms after filtering to the patient and sorting by date. -/
def build_coef_matrix (oracle : FitOracle) (patient_id : String) (df : Frame)
    (symptoms : List String) : Except PyError CoefMatrix := do
  let filtered ← filterEq df "PatientID" patient_id
  let df_patient ← sort_values filtered "Date"
  let (M, _) := symptoms.foldl (bcmStep oracle symptoms)
    (initCoefMatrix symptoms, df_patient)
  pure M

/-!
Characterization of `construct_network`: under distinct row and column
labels the fold produces exactly the edges given by a `filterMap` over
the matrix cells, and the node set is the set of row labels (plus edge
endpoints, which lie among the column labels).
-/

/-- Closed form of the edges contributed by one matrix row: the cells
that are present and meet the threshold. -/
def cellEdges (threshold : ℚ) (symptom : String)
    (qs : List (String × Option ℚ)) : List (String × String × ℚ) :=
  qs.filterMap (fun q => match q.2 with
    | some c => if threshold ≤ ratAbs c then some (q.1, symptom, c) else none
    | none => none)

/-- Closed form of the full edge list of `construct_network`. -/
def matrixEdges (M : CoefMatrix) (threshold : ℚ) : List (String × String × ℚ) :=
  ((M.index.zip M.entries).map (fun p => cellEdges threshold p.1 (M.cols.zip p.2))).flatten

theorem addNode_edges (G : Graph) (n : String) : (G.addNode n).edges = G.edges := by
  unfold Graph.addNode
  split <;> rfl

theorem mem_addNode_nodes (G : Graph) (n m : String) :
    m ∈ (G.addNode n).nodes ↔ m ∈ G.nodes ∨ m = n := by
  unfold Graph.addNode
  split
  · rename_i h
    constructor
    · exact Or.inl
    · rintro (hm | rfl)
      · exact hm
      · exact h
  · simp [or_comm]

theorem addEdge_nodes (G : Graph) (u v : String) (w : ℚ) :
    (G.addEdge u v w).nodes = ((G.addNode u).addNode v).nodes := by
  simp only [Graph.addEdge]
  split <;> rfl

theorem mem_addEdge_nodes (G : Graph) (u v m : String) (w : ℚ) :
    m ∈ (G.addEdge u v w).nodes ↔ m ∈ G.nodes ∨ m = u ∨ m = v := by
  rw [addEdge_nodes, mem_addNode_nodes, mem_addNode_nodes, or_assoc]

theorem addEdge_edges_fresh (G : Graph) (u v : String) (w : ℚ)
    (h : ∀ e ∈ G.edges, ¬(e.1 = u ∧ e.2.1 = v)) :
    (G.addEdge u v w).edges = G.edges ++ [(u, v, w)] := by
  have hany : ((G.addNode u).addNode v).edges.any (edgeKeyIs u v) = false := by
    rw [addNode_edges, addNode_edges, List.any_eq_false]
    intro e he
    simp only [edgeKeyIs, Bool.and_eq_true, beq_iff_eq]
    exact h e he
  simp only [Graph.addEdge, hany]
  simp [addNode_edges]

theorem processCell_nodes_sub (t : ℚ) (s : String) (G : Graph) (q : String × Option ℚ) :
    ∀ m ∈ G.nodes, m ∈ (processCell t s G q).nodes := by
  intro m hm
  unfold processCell
  match q with
  | (p, none) => exact hm
  | (p, some c) =>
      by_cases hc : t ≤ ratAbs c
      · simp only [if_pos hc]
        rw [mem_addEdge_nodes]
        exact Or.inl hm
      · simp only [if_neg hc]
        exact hm

theorem innerFold_nodes_sub (t : ℚ) (s : String) :
    ∀ (qs : List (String × Option ℚ)) (G : Graph) (m : String),
      m ∈ G.nodes → m ∈ (qs.foldl (processCell t s) G).nodes := by
  intro qs
  induction qs with
  | nil => intro G m hm; exact hm
  | cons q rest ih =>
      intro G m hm
      exact ih (processCell t s G q) m (processCell_nodes_sub t s G q m hm)

theorem innerFold_nodes_bound (t : ℚ) (s : String) :
    ∀ (qs : List (String × Option ℚ)) (G : Graph) (m : String),
      m ∈ (qs.foldl (processCell t s) G).nodes →
      m ∈ G.nodes ∨ m ∈ qs.map Prod.fst ∨ m = s := by
  intro qs
  induction qs with
  | nil => intro G m hm; exact Or.inl hm
  | cons q rest ih =>
      intro G m hm
      rcases ih (processCell t s G q) m hm with h1 | h2 | h3
      · unfold processCell at h1
        match q with
        | (p, none) => exact Or.inl h1
        | (p, some c) =>
            by_cases hc : t ≤ ratAbs c
            · simp only [if_pos hc] at h1
              rw [mem_addEdge_nodes] at h1
              rcases h1 with h | h | h
              · exact Or.inl h
              · exact Or.inr (Or.inl (by simp [h]))
              · exact Or.inr (Or.inr h)
            · simp only [if_neg hc] at h1
              exact Or.inl h1
      · refine Or.inr (Or.inl ?_)
        rw [List.map_cons]
        exact List.mem_cons_of_mem _ h2
      · exact Or.inr (Or.inr h3)

theorem innerFold_edges (t : ℚ) (s : String) :
    ∀ (qs : List (String × Option ℚ)) (G : Graph),
      (qs.map Prod.fst).Nodup →
      (∀ e ∈ G.edges, ∀ q ∈ qs, ¬(e.1 = q.1 ∧ e.2.1 = s)) →
      (qs.foldl (processCell t s) G).edges = G.edges ++ cellEdges t s qs := by
  intro qs
  induction qs with
  | nil => intro G _ _; simp [cellEdges]
  | cons q rest ih =>
      intro G hnd hfresh
      rw [List.map_cons, List.nodup_cons] at hnd
      have hstep : (processCell t s G q).edges = G.edges ++ cellEdges t s [q] := by
        unfold processCell
        match q with
        | (p, none) => simp [cellEdges]
        | (p, some c) =>
            by_cases hc : t ≤ ratAbs c
            · simp only [if_pos hc]
              rw [addEdge_edges_fresh]
              · simp [cellEdges, hc]
              · intro e he
                exact hfresh e he (p, some c) (List.mem_cons_self _ _)
            · simp only [if_neg hc]
              simp [cellEdges, hc]
      have hrest : ∀ e ∈ (processCell t s G q).edges, ∀ q2 ∈ rest,
          ¬(e.1 = q2.1 ∧ e.2.1 = s) := by
        intro e he q2 hq2
        rw [hstep, List.mem_append] at he
        rcases he with he | he
        · exact hfresh e he q2 (List.mem_cons_of_mem _ hq2)
        · unfold cellEdges at he
          simp only [List.filterMap] at he
          match q with
          | (p, none) => simp at he
          | (p, some c) =>
              by_cases hc : t ≤ ratAbs c
              · simp [hc] at he
                rintro ⟨h1, h2⟩
                rw [he] at h1
                have h1' : p = q2.1 := h1
                have hq : q2.1 ∈ rest.map Prod.fst :=
                  List.mem_map_of_mem Prod.fst hq2
                rw [← h1'] at hq
                exact hnd.1 hq
              · simp [hc] at he
      rw [List.foldl_cons, ih (processCell t s G q) hnd.2 hrest, hstep,
        List.append_assoc]
      congr 1
      unfold cellEdges
      simp [List.filterMap_cons]
      match q with
      | (p, none) => rfl
      | (p, some c) =>
          by_cases hc : t ≤ ratAbs c
          · simp [hc]
          · simp [hc]

theorem map_fst_zip_sublist {α β : Type} :
    ∀ (l1 : List α) (l2 : List β), ((l1.zip l2).map Prod.fst).Sublist l1 := by
  intro l1
  induction l1 with
  | nil => intro l2; simp
  | cons a rest ih =>
      intro l2
      cases l2 with
      | nil => simp
      | cons b l2t =>
          simp only [List.zip_cons_cons, List.map_cons]
          exact (ih l2t).cons₂ a

theorem cellEdges_snd (t : ℚ) (s : String) (qs : List (String × Option ℚ)) :
    ∀ e ∈ cellEdges t s qs, e.2.1 = s := by
  intro e he
  unfold cellEdges at he
  rcases List.mem_filterMap.1 he with ⟨q, _, hq⟩
  match q with
  | (p, none) => simp at hq
  | (p, some c) =>
      by_cases hc : t ≤ ratAbs c
      · simp only [if_pos hc] at hq
        injection hq with hq
        rw [← hq]
      · simp [hc] at hq

theorem processRow_nodes_sub (cols : List String) (t : ℚ) (G : Graph)
    (r : String × List (Option ℚ)) :
    ∀ m ∈ G.nodes, m ∈ (processRow cols t G r).nodes := by
  intro m hm
  unfold processRow
  apply innerFold_nodes_sub
  rw [mem_addNode_nodes]
  exact Or.inl hm

theorem outerFold_nodes_sub (cols : List String) (t : ℚ) :
    ∀ (rows : List (String × List (Option ℚ))) (G : Graph) (m : String),
      m ∈ G.nodes → m ∈ (rows.foldl (processRow cols t) G).nodes := by
  intro rows
  induction rows with
  | nil => intro G m hm; exact hm
  | cons r rest ih =>
      intro G m hm
      exact ih _ m (processRow_nodes_sub cols t G r m hm)

theorem outerFold_nodes_bound (cols : List String) (t : ℚ) :
    ∀ (rows : List (String × List (Option ℚ))) (G : Graph) (m : String),
      m ∈ (rows.foldl (processRow cols t) G).nodes →
      m ∈ G.nodes ∨ m ∈ rows.map Prod.fst ∨ m ∈ cols := by
  intro rows
  induction rows with
  | nil => intro G m hm; exact Or.inl hm
  | cons r rest ih =>
      intro G m hm
      rcases ih _ m hm with h1 | h2 | h3
      · unfold processRow at h1
        rcases innerFold_nodes_bound t r.1 _ _ m h1 with g1 | g2 | g3
        · rw [mem_addNode_nodes] at g1
          rcases g1 with g | g
          · exact Or.inl g
          · exact Or.inr (Or.inl (by rw [List.map_cons, g]; exact List.mem_cons_self _ _))
        · have : m ∈ cols := (map_fst_zip_sublist cols r.2).subset g2
          exact Or.inr (Or.inr this)
        · exact Or.inr (Or.inl (by rw [List.map_cons, g3]; exact List.mem_cons_self _ _))
      · refine Or.inr (Or.inl ?_)
        rw [List.map_cons]
        exact List.mem_cons_of_mem _ h2
      · exact Or.inr (Or.inr h3)

theorem outerFold_nodes_mem (cols : List String) (t : ℚ) :
    ∀ (rows : List (String × List (Option ℚ))) (G : Graph) (s : String),
      s ∈ rows.map Prod.fst → s ∈ (rows.foldl (processRow cols t) G).nodes := by
  intro rows
  induction rows with
  | nil => intro G s hs; simp at hs
  | cons r rest ih =>
      intro G s hs
      rw [List.map_cons, List.mem_cons] at hs
      rcases hs with rfl | hs
      · rw [List.foldl_cons]
        apply outerFold_nodes_sub
        unfold processRow
        apply innerFold_nodes_sub
        rw [mem_addNode_nodes]
        exact Or.inr rfl
      · rw [List.foldl_cons]
        exact ih _ s hs

theorem outerFold_edges (cols : List String) (t : ℚ) :
    ∀ (rows : List (String × List (Option ℚ))) (G : Graph),
      (rows.map Prod.fst).Nodup →
      cols.Nodup →
      (∀ e ∈ G.edges, e.2.1 ∉ rows.map Prod.fst) →
      (rows.foldl (processRow cols t) G).edges
        = G.edges ++ (rows.map (fun p => cellEdges t p.1 (cols.zip p.2))).flatten := by
  intro rows
  induction rows with
  | nil => intro G _ _ _; simp
  | cons r rest ih =>
      intro G hnd hc hfresh
      rw [List.map_cons, List.nodup_cons] at hnd
      have hstep : (processRow cols t G r).edges
          = G.edges ++ cellEdges t r.1 (cols.zip r.2) := by
        unfold processRow
        rw [innerFold_edges, addNode_edges]
        · exact (map_fst_zip_sublist cols r.2).nodup hc
        · intro e he q hq
          rw [addNode_edges] at he
          rintro ⟨_, h2⟩
          exact hfresh e he (by rw [List.map_cons, h2]; exact List.mem_cons_self _ _)
      have hfresh2 : ∀ e ∈ (processRow cols t G r).edges, e.2.1 ∉ rest.map Prod.fst := by
        intro e he
        rw [hstep, List.mem_append] at he
        rcases he with he | he
        · intro hmem
          exact hfresh e he (by rw [List.map_cons]; exact List.mem_cons_of_mem _ hmem)
        · rw [cellEdges_snd t r.1 _ e he]
          exact hnd.1
      rw [List.foldl_cons, ih _ hnd.2 hc hfresh2, hstep, List.map_cons,
        List.flatten_cons, List.append_assoc]

theorem construct_network_edges (M : CoefMatrix) (t : ℚ)
    (h1 : M.index.Nodup) (h2 : M.cols.Nodup) :
    (construct_network M t).edges = matrixEdges M t := by
  unfold construct_network matrixEdges
  rw [outerFold_edges]
  · simp [Graph.empty]
  · exact (map_fst_zip_sublist _ _).nodup h1
  · exact h2
  · intro e he
    simp [Graph.empty] at he

theorem mem_construct_network_nodes (M : CoefMatrix) (t : ℚ)
    (hcols : ∀ c ∈ M.cols, c ∈ M.index)
    (hlen : M.index.length ≤ M.entries.length) :
    ∀ m, m ∈ (construct_network M t).nodes ↔ m ∈ M.index := by
  have hfst : (M.index.zip M.entries).map Prod.fst = M.index :=
    List.map_fst_zip _ _ hlen
  intro m
  constructor
  · intro hm
    rcases outerFold_nodes_bound M.cols t _ _ m hm with h | h | h
    · simp [Graph.empty] at h
    · rw [hfst] at h
      exact h
    · exact hcols m h
  · intro hm
    apply outerFold_nodes_mem
    rw [hfst]
    exact hm

theorem find?_eq_of_nodup {β : Type} :
    ∀ (qs : List (String × β)) (a : String) (b : β),
      (qs.map Prod.fst).Nodup →
      ((a, b) ∈ qs ↔ qs.find? (fun q => q.1 == a) = some (a, b)) := by
  intro qs
  induction qs with
  | nil => simp
  | cons q rest ih =>
      intro a b hnd
      rw [List.map_cons, List.nodup_cons] at hnd
      by_cases h : q.1 = a
      · rw [List.find?_cons_of_pos _ (by simp [h])]
        constructor
        · intro hmem
          rcases List.mem_cons.1 hmem with rfl | hmem
          · rfl
          · exfalso
            apply hnd.1
            rw [h]
            exact List.mem_map_of_mem Prod.fst hmem
        · intro heq
          injection heq with heq
          rw [← heq]
          exact List.mem_cons_self _ _
      · rw [List.find?_cons_of_neg _ (by simp [h])]
        rw [← ih a b hnd.2]
        constructor
        · intro hmem
          rcases List.mem_cons.1 hmem with heq | hmem
          · exfalso
            apply h
            rw [← heq]
          · exact hmem
        · exact List.mem_cons_of_mem _

theorem mem_cellEdges (t : ℚ) (s : String) (qs : List (String × Option ℚ))
    (p s2 : String) (w : ℚ) :
    (p, s2, w) ∈ cellEdges t s qs ↔ s2 = s ∧ (p, some w) ∈ qs ∧ t ≤ ratAbs w := by
  unfold cellEdges
  rw [List.mem_filterMap]
  constructor
  · rintro ⟨q, hq, hfq⟩
    match q with
    | (a, none) => simp at hfq
    | (a, some c) =>
        by_cases hc : t ≤ ratAbs c
        · simp only [if_pos hc] at hfq
          injection hfq with hfq
          obtain ⟨rfl, rfl, rfl⟩ : a = p ∧ s = s2 ∧ c = w := by
            refine ⟨congrArg Prod.fst hfq, ?_, ?_⟩
            · exact congrArg (fun x => x.2.1) hfq
            · exact congrArg (fun x => x.2.2) hfq
          exact ⟨rfl, hq, hc⟩
        · simp [hc] at hfq
  · rintro ⟨rfl, hq, hw⟩
    exact ⟨(p, some w), hq, by simp [hw]⟩

theorem mem_matrixEdges (M : CoefMatrix) (t : ℚ)
    (h1 : M.index.Nodup) (h2 : M.cols.Nodup) (p s : String) (w : ℚ) :
    (p, s, w) ∈ matrixEdges M t ↔ M.get s p = some w ∧ t ≤ ratAbs w := by
  unfold matrixEdges CoefMatrix.get
  rw [List.mem_flatten]
  have hndz : ((M.index.zip M.entries).map Prod.fst).Nodup :=
    (map_fst_zip_sublist _ _).nodup h1
  constructor
  · rintro ⟨l, hl, hmem⟩
    rcases List.mem_map.1 hl with ⟨pr, hpr, rfl⟩
    rw [mem_cellEdges] at hmem
    obtain ⟨rfl, hq, hw⟩ := hmem
    have hfind : (M.index.zip M.entries).find? (fun q => q.1 == pr.1)
        = some (pr.1, pr.2) :=
      (find?_eq_of_nodup _ pr.1 pr.2 hndz).1 (by
        rw [show ((pr.1, pr.2) : String × List (Option ℚ)) = pr from rfl]
        exact hpr)
    rw [hfind]
    dsimp only
    have hndc : ((M.cols.zip pr.2).map Prod.fst).Nodup :=
      (map_fst_zip_sublist _ _).nodup h2
    have hfind2 : (M.cols.zip pr.2).find? (fun q => q.1 == p) = some (p, some w) :=
      (find?_eq_of_nodup _ p (some w) hndc).1 hq
    rw [hfind2]
    exact ⟨rfl, hw⟩
  · rintro ⟨hget, hw⟩
    cases hfind : (M.index.zip M.entries).find? (fun q => q.1 == s) with
    | none => rw [hfind] at hget; simp at hget
    | some pr =>
        rw [hfind] at hget
        dsimp only at hget
        cases hfind2 : (M.cols.zip pr.2).find? (fun q => q.1 == p) with
        | none => rw [hfind2] at hget; simp at hget
        | some q =>
            rw [hfind2] at hget
            have hpr1 : pr.1 = s := by
              have := List.find?_some hfind
              simpa using this
            have hq1 : q.1 = p := by
              have := List.find?_some hfind2
              simpa using this
            have hprm : pr ∈ M.index.zip M.entries := List.mem_of_find?_eq_some hfind
            have hqm : q ∈ M.cols.zip pr.2 := List.mem_of_find?_eq_some hfind2
            refine ⟨cellEdges t pr.1 (M.cols.zip pr.2), List.mem_map_of_mem _ hprm, ?_⟩
            rw [mem_cellEdges]
            refine ⟨hpr1.symm, ?_, hw⟩
            have : q = (p, some w) := by
              have hq2 : q.2 = some w := hget
              rw [← hq1, ← hq2]
            rw [← this]
            exact hqm

/-!
Lemmas about label-based reads and writes on coefficient matrices.
-/

theorem zip_map_zip {α β γ : Type} :
    ∀ (l1 : List α) (l2 : List β) (g : α × β → γ),
      l1.zip ((l1.zip l2).map g) = (l1.zip l2).map (fun pr => (pr.1, g pr)) := by
  intro l1
  induction l1 with
  | nil => intro l2 g; rfl
  | cons a rest ih =>
      intro l2 g
      cases l2 with
      | nil => rfl
      | cons b l2t =>
          simp only [List.zip_cons_cons, List.map_cons]
          rw [ih]

theorem find?_fst_map_snd {β γ : Type} (g : String × β → γ) :
    ∀ (l : List (String × β)) (s : String),
      (l.map (fun pr => (pr.1, g pr))).find? (fun q => q.1 == s)
        = (l.find? (fun q => q.1 == s)).map (fun pr => (pr.1, g pr)) := by
  intro l
  induction l with
  | nil => intro s; rfl
  | cons q rest ih =>
      intro s
      by_cases h : q.1 = s
      · rw [List.map_cons, List.find?_cons_of_pos _ (by simp [h]),
          List.find?_cons_of_pos _ (by simp [h])]
        rfl
      · rw [List.map_cons, List.find?_cons_of_neg _ (by simp [h]),
          List.find?_cons_of_neg _ (by simp [h]), ih]

theorem get_set_split (M : CoefMatrix) (o p : String) (v : Option ℚ) (s s2 : String) :
    (M.set o p v).get s s2 = M.get s s2 ∨
      ((M.set o p v).get s s2 = v ∧ s = o ∧ s2 = p) := by
  unfold CoefMatrix.set CoefMatrix.get
  dsimp only
  rw [zip_map_zip, find?_fst_map_snd]
  cases hfind : (M.index.zip M.entries).find? (fun q => q.1 == s) with
  | none => left; rfl
  | some pr =>
      have hs : pr.1 = s := by simpa using List.find?_some hfind
      dsimp only [Option.map]
      by_cases ho : pr.1 = o
      · rw [if_pos ho]
        rw [zip_map_zip, find?_fst_map_snd]
        cases hfind2 : (M.cols.zip pr.2).find? (fun q => q.1 == s2) with
        | none => left; rfl
        | some q =>
            have hq : q.1 = s2 := by simpa using List.find?_some hfind2
            dsimp only [Option.map]
            by_cases hp : q.1 = p
            · right
              refine ⟨by rw [if_pos hp], ?_, ?_⟩
              · rw [← hs, ho]
              · rw [← hq, hp]
            · left
              rw [if_neg hp]
      · rw [if_neg ho]
        left
        rfl

theorem get_set_of_ne (M : CoefMatrix) (o p : String) (v : Option ℚ) (s s2 : String)
    (h : ¬(s = o ∧ s2 = p)) : (M.set o p v).get s s2 = M.get s s2 := by
  rcases get_set_split M o p v s s2 with h1 | ⟨_, h2, h3⟩
  · exact h1
  · exact absurd ⟨h2, h3⟩ h

theorem get_init (symptoms : List String) (s p : String) :
    (initCoefMatrix symptoms).get s p = none := by
  unfold initCoefMatrix CoefMatrix.get
  dsimp only
  cases hfind : (symptoms.zip (symptoms.map fun _ =>
      symptoms.map fun _ => (none : Option ℚ))).find? (fun q => q.1 == s) with
  | none => rfl
  | some pr =>
      dsimp only
      obtain ⟨a, b⟩ := pr
      have h2 : b ∈ symptoms.map (fun _ => symptoms.map fun _ => (none : Option ℚ)) :=
        (List.of_mem_zip (List.mem_of_find?_eq_some hfind)).2
      rcases List.mem_map.1 h2 with ⟨_, _, heq⟩
      rw [← heq]
      cases hfind2 : (symptoms.zip (symptoms.map fun _ =>
          (none : Option ℚ))).find? (fun q => q.1 == p) with
      | none => rfl
      | some q =>
          dsimp only
          obtain ⟨c, d⟩ := q
          have hq2 : d ∈ symptoms.map (fun _ => (none : Option ℚ)) :=
            (List.of_mem_zip (List.mem_of_find?_eq_some hfind2)).2
          rcases List.mem_map.1 hq2 with ⟨_, _, hq⟩
          exact hq.symm

theorem set_index (M : CoefMatrix) (o p : String) (v : Option ℚ) :
    (M.set o p v).index = M.index := rfl

theorem set_cols (M : CoefMatrix) (o p : String) (v : Option ℚ) :
    (M.set o p v).cols = M.cols := rfl

theorem ratAbs_eq_abs (q : ℚ) : ratAbs q = |q| := by
  unfold ratAbs
  by_cases h : q < 0
  · rw [if_pos h, abs_of_neg h]
  · rw [if_neg h, abs_of_nonneg (le_of_not_lt h)]

/-- A small concrete coefficient matrix used by witnesses. -/
def Mw : CoefMatrix :=
  { index := ["a", "b"], cols := ["a", "b"],
    entries := [[some 1, none], [some (1/5), some 2]] }

/-- C1: for a coefficient matrix over tracked symptom names and any
threshold, `construct_network` yields exactly one node per tracked
symptom (for every threshold, so the node set is threshold-independent),
and its edges are exactly the pairs predictor → outcome whose cell is
present and whose absolute value meets the threshold, weighted by that
cell — no other filter. -/
theorem construct_network_spec (M : CoefMatrix) (t : ℚ)
    (hsq : M.cols = M.index) (hnd : M.index.Nodup)
    (hlen : M.index.length ≤ M.entries.length) (_ht : 0 ≤ t) :
    (∀ t2 : ℚ, ∀ m, m ∈ (construct_network M t2).nodes ↔ m ∈ M.index) ∧
    (∀ p s w, (p, s, w) ∈ (construct_network M t).edges ↔
      M.get s p = some w ∧ t ≤ |w|) := by
  have hndc : M.cols.Nodup := by rw [hsq]; exact hnd
  constructor
  · intro t2 m
    refine mem_construct_network_nodes M t2 ?_ hlen m
    intro c hc
    rw [← hsq]
    exact hc
  · intro p s w
    rw [construct_network_edges M t hnd hndc, ← ratAbs_eq_abs]
    exact mem_matrixEdges M t hnd hndc p s w

/-- Witness for C1 at a concrete 2-by-2 matrix and threshold 1/2. -/
theorem construct_network_spec_witness :
    (Mw.cols = Mw.index ∧ Mw.index.Nodup ∧ Mw.index.length ≤ Mw.entries.length
      ∧ (0 : ℚ) ≤ 1/2) ∧
    ((∀ t2 : ℚ, ∀ m, m ∈ (construct_network Mw t2).nodes ↔ m ∈ Mw.index) ∧
     (∀ p s w, (p, s, w) ∈ (construct_network Mw (1/2)).edges ↔
        Mw.get s p = some w ∧ (1/2 : ℚ) ≤ |w|)) :=
  ⟨⟨rfl, by decide, by decide, by norm_num⟩,
    construct_network_spec Mw (1/2) rfl (by decide) (by decide) (by norm_num)⟩

/-- C5: raising the threshold only prunes edges — every edge produced at
the higher threshold is produced (with the same weight, being part of
the edge triple) at the lower one, and a shared predictor → outcome pair
carries the same weight at both thresholds. -/
theorem construct_network_monotone (M : CoefMatrix) (t1 t2 : ℚ)
    (hnd : M.index.Nodup) (hndc : M.cols.Nodup) (h12 : t1 < t2) :
    (∀ e ∈ (construct_network M t2).edges, e ∈ (construct_network M t1).edges) ∧
    (∀ p s w1 w2, (p, s, w1) ∈ (construct_network M t2).edges →
      (p, s, w2) ∈ (construct_network M t1).edges → w1 = w2) := by
  constructor
  · intro e he
    obtain ⟨p, s, w⟩ := e
    rw [construct_network_edges M t2 hnd hndc, mem_matrixEdges M t2 hnd hndc] at he
    rw [construct_network_edges M t1 hnd hndc, mem_matrixEdges M t1 hnd hndc]
    exact ⟨he.1, le_trans (le_of_lt h12) he.2⟩
  · intro p s w1 w2 h1 h2
    rw [construct_network_edges M t2 hnd hndc, mem_matrixEdges M t2 hnd hndc] at h1
    rw [construct_network_edges M t1 hnd hndc, mem_matrixEdges M t1 hnd hndc] at h2
    have h3 := h1.1.symm.trans h2.1
    injection h3

/-- Witness for C5 at the concrete matrix with thresholds 3/10 < 1. -/
theorem construct_network_monotone_witness :
    (Mw.index.Nodup ∧ Mw.cols.Nodup ∧ (3/10 : ℚ) < 1) ∧
    ((∀ e ∈ (construct_network Mw 1).edges, e ∈ (construct_network Mw (3/10)).edges) ∧
     (∀ p s w1 w2, (p, s, w1) ∈ (construct_network Mw 1).edges →
        (p, s, w2) ∈ (construct_network Mw (3/10)).edges → w1 = w2)) :=
  ⟨⟨by decide, by decide, by norm_num⟩,
    construct_network_monotone Mw (3/10) 1 (by decide) (by decide) (by norm_num)⟩

/-- C6: the pipeline is deterministic — two runs on identical input
frame, subject, symptom list and threshold produce identical results
(matrices, edge sets and layout positions included), and the layout
stored in the produced figure is exactly the fixed seeded layout
function applied to the produced graph, i.e. a pure function of the
graph.  Every source of randomness (the seeded `spring_layout` and the
deterministic fitting routine) enters only through the fixed `layoutFn`
and `oracle` parameters. -/
theorem genPSN_deterministic (oracle : FitOracle) (layoutFn : LayoutFn)
    (patient_df : Frame) (patient_id : String) (symptoms : List String)
    (threshold : ℚ) :
    generate_person_specific_network oracle layoutFn patient_df patient_id
        symptoms threshold
      = generate_person_specific_network oracle layoutFn patient_df patient_id
        symptoms threshold
    ∧ ∀ fig f1,
        generate_person_specific_network oracle layoutFn patient_df patient_id
            symptoms threshold = Except.ok (fig, f1) →
        fig.pos = layoutFn fig.graph := by
  refine ⟨rfl, ?_⟩
  intro fig f1 hok
  unfold generate_person_specific_network at hok
  cases hsort : sort_values patient_df "Timestamp" with
  | error e =>
      rw [hsort] at hok
      simp only [Except.bind, bind, Except.instMonad] at hok
      cases hok
  | ok dfp =>
      rw [hsort] at hok
      simp only [Except.bind, bind, Except.instMonad] at hok
      cases hbuild : buildCoefMatrixPSN oracle dfp symptoms with
      | error e =>
          rw [hbuild] at hok
          simp only [Except.bind] at hok
          cases hok
      | ok pr =>
          rw [hbuild] at hok
          simp only [Except.bind] at hok
          obtain ⟨M, f2⟩ := pr
          simp only [pure, Except.pure, Except.ok.injEq, Prod.mk.injEq] at hok
          obtain ⟨h1, h2⟩ := hok
          rw [← h1]
          rfl

/-!
Invariants of the per-symptom loop of `generate_person_specific_network`
in `services/network_analysis.py`: because each symptom is removed from
its own predictor list, the matrix labels stay fixed and every diagonal
cell stays absent, whatever the data and the fitting oracle do.
-/

theorem storeStep_labels (coef : List (String × ℚ)) (s : String) (M : CoefMatrix)
    (p : String) :
    (storeStep coef s M p).index = M.index ∧ (storeStep coef s M p).cols = M.cols := by
  unfold storeStep
  cases coef.find? (fun pr => pr.1 == p ++ "_lag") with
  | none => exact ⟨rfl, rfl⟩
  | some pr => exact ⟨rfl, rfl⟩

theorem storeStep_diag (coef : List (String × ℚ)) (s : String) (M : CoefMatrix)
    (p : String) (hp : p ≠ s) (h : ∀ x, M.get x x = none) :
    ∀ x, (storeStep coef s M p).get x x = none := by
  unfold storeStep
  cases coef.find? (fun pr => pr.1 == p ++ "_lag") with
  | none => exact h
  | some pr =>
      intro x
      rw [get_set_of_ne]
      · exact h x
      · rintro ⟨rfl, rfl⟩
        exact hp rfl

theorem storeCoefs_inv (s : String) (res : FitResult) :
    ∀ (preds : List String) (M : CoefMatrix),
      (∀ p ∈ preds, p ≠ s) → (∀ x, M.get x x = none) →
      (storeCoefs M s preds res).index = M.index ∧
      (storeCoefs M s preds res).cols = M.cols ∧
      (∀ x, (storeCoefs M s preds res).get x x = none) := by
  intro preds
  unfold storeCoefs
  induction preds with
  | nil => intro M _ h; exact ⟨rfl, rfl, h⟩
  | cons p rest ih =>
      intro M hp h
      rw [List.foldl_cons]
      obtain ⟨h1, h2, h3⟩ := ih (storeStep _ s M p)
        (fun q hq => hp q (List.mem_cons_of_mem _ hq))
        (storeStep_diag _ s M p (hp p (List.mem_cons_self _ _)) h)
      obtain ⟨g1, g2⟩ := storeStep_labels
        (res.params.filter (fun pr => hasLagSuffix pr.1)) s M p
      exact ⟨h1.trans g1, h2.trans g2, h3⟩

theorem setNoneRow_inv (s : String) :
    ∀ (preds : List String) (M : CoefMatrix),
      (∀ x, M.get x x = none) →
      (preds.foldl (fun M1 p => M1.set s p none) M).index = M.index ∧
      (preds.foldl (fun M1 p => M1.set s p none) M).cols = M.cols ∧
      (∀ x, (preds.foldl (fun M1 p => M1.set s p none) M).get x x = none) := by
  intro preds
  induction preds with
  | nil => intro M h; exact ⟨rfl, rfl, h⟩
  | cons p rest ih =>
      intro M h
      rw [List.foldl_cons]
      have hstep : ∀ x, (M.set s p none).get x x = none := by
        intro x
        rcases get_set_split M s p none x x with h1 | ⟨h1, _, _⟩
        · rw [h1]; exact h x
        · exact h1
      obtain ⟨h1, h2, h3⟩ := ih (M.set s p none) hstep
      exact ⟨h1, h2, h3⟩

theorem psnStep_inv (oracle : FitOracle) (symptoms : List String)
    (hnd : symptoms.Nodup) (acc : CoefMatrix × Frame) (symptom : String)
    (h3 : ∀ x, acc.1.get x x = none) :
    ∀ M1 f1, psnStep oracle symptoms acc symptom = Except.ok (M1, f1) →
      M1.index = acc.1.index ∧ M1.cols = acc.1.cols ∧ (∀ x, M1.get x x = none) := by
  intro M1 f1 hok
  simp only [psnStep] at hok
  have hpreds : ∀ p ∈ symptoms.erase symptom, p ≠ symptom := by
    intro p hp
    exact ((List.Nodup.mem_erase_iff hnd).1 hp).1
  cases hfit : fit_multilevel_model oracle acc.2 symptom (symptoms.erase symptom) with
  | error e =>
      rw [hfit] at hok
      simp only [Except.bind, bind, Except.instMonad] at hok
      cases hok
  | ok pr =>
      rw [hfit] at hok
      simp only [Except.bind, bind, Except.instMonad] at hok
      obtain ⟨result, df1⟩ := pr
      cases result with
      | some res =>
          simp only [pure, Except.pure, Except.ok.injEq, Prod.mk.injEq] at hok
          obtain ⟨hM, _⟩ := hok
          rw [← hM]
          exact storeCoefs_inv symptom res (symptoms.erase symptom) acc.1 hpreds h3
      | none =>
          simp only [pure, Except.pure, Except.ok.injEq, Prod.mk.injEq] at hok
          obtain ⟨hM, _⟩ := hok
          rw [← hM]
          exact setNoneRow_inv symptom (symptoms.erase symptom) acc.1 h3

theorem buildPSN_fold_inv (oracle : FitOracle) (symptoms : List String)
    (hnd : symptoms.Nodup) :
    ∀ (L : List String) (acc : CoefMatrix × Frame),
      (∀ x, acc.1.get x x = none) →
      ∀ M f1, L.foldlM (psnStep oracle symptoms) acc = Except.ok (M, f1) →
        M.index = acc.1.index ∧ M.cols = acc.1.cols ∧ (∀ x, M.get x x = none) := by
  intro L
  induction L with
  | nil =>
      intro acc h3 M f1 hok
      simp only [List.foldlM_nil, pure, Except.pure, Except.ok.injEq] at hok
      subst hok
      exact ⟨rfl, rfl, h3⟩
  | cons x rest ih =>
      intro acc h3 M f1 hok
      rw [List.foldlM_cons] at hok
      cases hstep : psnStep oracle symptoms acc x with
      | error e =>
          rw [hstep] at hok
          simp only [Except.bind, bind, Except.instMonad] at hok
          cases hok
      | ok acc2 =>
          rw [hstep] at hok
          simp only [Except.bind, bind, Except.instMonad] at hok
          obtain ⟨M2, f2⟩ := acc2
          obtain ⟨g1, g2, g3⟩ := psnStep_inv oracle symptoms hnd acc x h3 M2 f2 hstep
          obtain ⟨k1, k2, k3⟩ := ih (M2, f2) g3 M f1 hok
          exact ⟨k1.trans g1, k2.trans g2, k3⟩

theorem buildCoefMatrixPSN_inv (oracle : FitOracle) (df : Frame)
    (symptoms : List String) (hnd : symptoms.Nodup) :
    ∀ M f1, buildCoefMatrixPSN oracle df symptoms = Except.ok (M, f1) →
      M.index = symptoms ∧ M.cols = symptoms ∧ (∀ x, M.get x x = none) := by
  intro M f1 hok
  unfold buildCoefMatrixPSN at hok
  have h3 : ∀ x, (initCoefMatrix symptoms).get x x = none := fun x => get_init _ _ _
  obtain ⟨k1, k2, k3⟩ := buildPSN_fold_inv oracle symptoms hnd symptoms
    (initCoefMatrix symptoms, df) h3 M f1 hok
  exact ⟨k1, k2, k3⟩

/-- C2 (amended): in the `services/network_analysis.py` pipeline a
symptom is removed from its own predictor list before fitting (the code
comment says "to avoid self-loops"), so its diagonal cell is never
written: whatever the data, the oracle and the threshold, the produced
network never contains a self-loop edge. -/
theorem genPSN_no_self_loops (oracle : FitOracle) (layoutFn : LayoutFn)
    (patient_df : Frame) (patient_id : String) (symptoms : List String)
    (threshold : ℚ) (hnd : symptoms.Nodup) :
    ∀ fig f1, generate_person_specific_network oracle layoutFn patient_df
        patient_id symptoms threshold = Except.ok (fig, f1) →
      ∀ s w, (s, s, w) ∉ fig.graph.edges := by
  intro fig f1 hok s w hmem
  unfold generate_person_specific_network at hok
  cases hsort : sort_values patient_df "Timestamp" with
  | error e =>
      rw [hsort] at hok
      simp only [Except.bind, bind, Except.instMonad] at hok
      cases hok
  | ok dfp =>
      rw [hsort] at hok
      simp only [Except.bind, bind, Except.instMonad] at hok
      cases hbuild : buildCoefMatrixPSN oracle dfp symptoms with
      | error e =>
          rw [hbuild] at hok
          simp only [Except.bind] at hok
          cases hok
      | ok pr =>
          rw [hbuild] at hok
          simp only [Except.bind] at hok
          obtain ⟨M, f2⟩ := pr
          simp only [pure, Except.pure, Except.ok.injEq, Prod.mk.injEq] at hok
          obtain ⟨h1, h2⟩ := hok
          obtain ⟨k1, k2, k3⟩ := buildCoefMatrixPSN_inv oracle dfp symptoms hnd M f2 hbuild
          have hndi : M.index.Nodup := by rw [k1]; exact hnd
          have hndc : M.cols.Nodup := by rw [k2]; exact hnd
          rw [← h1] at hmem
          have hmem2 : (s, s, w) ∈ (construct_network M threshold).edges := hmem
          rw [construct_network_edges M threshold hndi hndc,
            mem_matrixEdges M threshold hndi hndc] at hmem2
          have hx := hmem2.1
          rw [k3 s] at hx
          cases hx

/-- The layout stand-in used by witnesses: every node at the origin. -/
def layoutZero : LayoutFn := fun G => G.nodes.map (fun n => (n, (0, 0)))

/-- A fitting oracle that always succeeds and reports a strong
(absolute value 9) coefficient for every lag parameter, the self-lag
parameter included. -/
def oracleSelf : FitOracle :=
  fun _ _ _ => some ⟨[("Intercept", 1), ("a_lag", 9), ("b_lag", 9)]⟩

/-- A fitting oracle on which every attempted fit fails. -/
def oracleNone : FitOracle := fun _ _ _ => none

/-- A 7-observation complete single-subject frame over symptoms a, b. -/
def dfSeven : Frame :=
  { cols := ["PatientID", "Timestamp", "a", "b"],
    rows := (List.range 7).map (fun k =>
      [Cell.str "P1", Cell.num k, Cell.num k, Cell.num (k + 1)]) }

/-- Witness for C2 at a concrete frame, oracle and threshold. -/
theorem genPSN_no_self_loops_witness :
    (["a", "b"] : List String).Nodup ∧
    (∀ fig f1, generate_person_specific_network oracleSelf layoutZero dfSeven
        "P1" ["a", "b"] (mkRat 3 10) = Except.ok (fig, f1) →
      ∀ s w, (s, s, w) ∉ fig.graph.edges) :=
  ⟨by decide, genPSN_no_self_loops oracleSelf layoutZero dfSeven "P1" ["a", "b"]
    (mkRat 3 10) (by decide)⟩

/-- Counterexample for C2 as stated: on a complete 7-row series with an
oracle reporting a self-lag coefficient of 9 (far above the threshold
3/10) for every fit, the diagonal cell stays absent — it is not
estimated like the other entries — and the resulting edge set contains
the two cross edges of weight 9 but no self-loop. -/
theorem genPSN_self_loop_counterexample :
    (match buildCoefMatrixPSN oracleSelf dfSeven ["a", "b"] with
      | Except.ok (M, _) => M.get "a" "a"
      | Except.error _ => some 99) = none ∧
    (match generate_person_specific_network oracleSelf layoutZero dfSeven
        "P1" ["a", "b"] (mkRat 3 10) with
      | Except.ok (fig, _) => fig.graph.edges
      | Except.error _ => []) = [("b", "a", 9), ("a", "b", 9)] := by
  constructor
  · rfl
  · rfl

/-- Witness for C6 at a concrete oracle, layout, frame and threshold. -/
theorem genPSN_deterministic_witness :
    generate_person_specific_network oracleSelf layoutZero dfSeven "P1"
        ["a", "b"] (mkRat 3 10)
      = generate_person_specific_network oracleSelf layoutZero dfSeven "P1"
        ["a", "b"] (mkRat 3 10)
    ∧ ∀ fig f1,
        generate_person_specific_network oracleSelf layoutZero dfSeven "P1"
            ["a", "b"] (mkRat 3 10) = Except.ok (fig, f1) →
        fig.pos = layoutZero fig.graph :=
  genPSN_deterministic oracleSelf layoutZero dfSeven "P1" ["a", "b"] (mkRat 3 10)

/-!
The minimum-data policy of `fit_multilevel_model` in
`services/network_analysis.py`.
-/

theorem idxOfCol_isSome_iff (c : String) :
    ∀ l : List String, (idxOfCol c l).isSome = true ↔ c ∈ l := by
  intro l
  induction l with
  | nil => simp [idxOfCol]
  | cons a rest ih =>
      unfold idxOfCol
      by_cases h : a = c
      · simp [h]
      · have hb : (a == c) = false := by simp [h]
        rw [hb]
        simp only [Bool.false_eq_true, if_false, Option.isSome_map']
        rw [ih]
        constructor
        · exact fun hx => List.mem_cons_of_mem _ hx
        · intro hx
          rcases List.mem_cons.1 hx with rfl | hx
          · exact absurd rfl h
          · exact hx

theorem getCol_isSome (f : Frame) (c : String) (h : c ∈ f.cols) :
    ∃ s, f.getCol c = some s := by
  unfold Frame.getCol Frame.colIdx
  have h2 := (idxOfCol_isSome_iff c f.cols).2 h
  cases hf : idxOfCol c f.cols with
  | none => rw [hf] at h2; simp at h2
  | some j => exact ⟨_, rfl⟩

theorem setCol_cols_sub (f : Frame) (c : String) (s : List Cell) :
    ∀ d ∈ f.cols, d ∈ (f.setCol c s).cols := by
  intro d hd
  unfold Frame.setCol
  split
  · exact hd
  · exact List.mem_append_left _ hd

theorem addLagCols_ok : ∀ (preds : List String) (f : Frame),
    (∀ p ∈ preds, p ∈ f.cols) → (addLagCols f preds).2 = none := by
  intro preds
  induction preds with
  | nil => intro f _; rfl
  | cons p rest ih =>
      intro f hp
      unfold addLagCols
      obtain ⟨s, hs⟩ := getCol_isSome f p (hp p (List.mem_cons_self _ _))
      rw [hs]
      exact ih _ (fun q hq => setCol_cols_sub f _ _ q (hp q (List.mem_cons_of_mem _ hq)))

/-- C3 (amended): the estimator's only data floor is five post-dropna
rows, independent of the predictor count.  Below five usable rows it
fails fast, returning the failure marker without consulting the fitting
oracle (the result is identical for every oracle); at five or more rows
it always attempts the fit on the prepared frame.  There is no
predictor-count-dependent floor of max(predictor-count + 2, 5). -/
theorem fit_floor_policy (df : Frame) (symptom : String) (predictors : List String)
    (hp : ∀ p ∈ predictors, p ∈ df.cols) :
    (((addLagCols df predictors).1.dropna).rows.length < 5 →
        ∀ oracle : FitOracle, fit_multilevel_model oracle df symptom predictors
          = Except.ok (none, (addLagCols df predictors).1)) ∧
    (5 ≤ ((addLagCols df predictors).1.dropna).rows.length →
        ∀ oracle : FitOracle, fit_multilevel_model oracle df symptom predictors
          = Except.ok (oracle ((addLagCols df predictors).1.dropna) symptom predictors,
              (addLagCols df predictors).1)) := by
  have hok := addLagCols_ok predictors df hp
  obtain ⟨df1, hopt⟩ : ∃ df1, addLagCols df predictors = (df1, none) := by
    cases hlag : addLagCols df predictors with
    | mk a b =>
        rw [hlag] at hok
        dsimp at hok
        subst hok
        exact ⟨a, rfl⟩
  rw [hopt]
  dsimp only
  constructor
  · intro h oracle
    unfold fit_multilevel_model
    rw [hopt]
    dsimp only
    rw [if_pos h]
  · intro h oracle
    unfold fit_multilevel_model
    rw [hopt]
    dsimp only
    rw [if_neg (by omega)]

/-- A complete 7-row frame with outcome s and five predictor columns. -/
def dfFloor : Frame :=
  { cols := ["PatientID", "Timestamp", "s", "p1", "p2", "p3", "p4", "p5"],
    rows := (List.range 7).map (fun k =>
      [Cell.str "P1", Cell.num k, Cell.num k, Cell.num k, Cell.num (k + 1),
       Cell.num (2 * k), Cell.num (3 * k), Cell.num (k * k)]) }

/-- A recognizable successful fit used to mark that a fit was attempted. -/
def resMark : FitResult := ⟨[("p1_lag", 1)]⟩

/-- An oracle whose marker result identifies that the fit was attempted. -/
def oracleMark : FitOracle := fun _ _ _ => some resMark

/-- Counterexample for C3 as stated: with five predictors the claimed
floor is max(5 + 2, 5) = 7 usable rows, and the prepared data has only
6, yet the code attempts the fit — the oracle's marker result is
returned instead of the fail-fast marker. -/
theorem fit_floor_counterexample :
    ((addLagCols dfFloor ["p1", "p2", "p3", "p4", "p5"]).1.dropna).rows.length = 6 ∧
    6 < 5 + 2 ∧
    fit_multilevel_model oracleMark dfFloor "s" ["p1", "p2", "p3", "p4", "p5"]
      = Except.ok (some resMark,
          (addLagCols dfFloor ["p1", "p2", "p3", "p4", "p5"]).1) := by
  refine ⟨rfl, by norm_num, rfl⟩

/-- Witness for C3 at the concrete frame and predictor list. -/
theorem fit_floor_policy_witness :
    (∀ p ∈ (["p1", "p2", "p3", "p4", "p5"] : List String), p ∈ dfFloor.cols) ∧
    ((((addLagCols dfFloor ["p1", "p2", "p3", "p4", "p5"]).1.dropna).rows.length < 5 →
        ∀ oracle : FitOracle,
          fit_multilevel_model oracle dfFloor "s" ["p1", "p2", "p3", "p4", "p5"]
            = Except.ok (none, (addLagCols dfFloor ["p1", "p2", "p3", "p4", "p5"]).1)) ∧
     (5 ≤ ((addLagCols dfFloor ["p1", "p2", "p3", "p4", "p5"]).1.dropna).rows.length →
        ∀ oracle : FitOracle,
          fit_multilevel_model oracle dfFloor "s" ["p1", "p2", "p3", "p4", "p5"]
            = Except.ok (oracle ((addLagCols dfFloor
                  ["p1", "p2", "p3", "p4", "p5"]).1.dropna) "s"
                  ["p1", "p2", "p3", "p4", "p5"],
                (addLagCols dfFloor ["p1", "p2", "p3", "p4", "p5"]).1))) :=
  ⟨by decide, fit_floor_policy dfFloor "s" ["p1", "p2", "p3", "p4", "p5"] (by decide)⟩

/-!
Frame mutation by the estimator versus copying at the pipeline level.
-/

theorem setCol_cols_of_new (f : Frame) (c : String) (s : List Cell)
    (h : c ∉ f.cols) : (f.setCol c s).cols = f.cols ++ [c] := by
  unfold Frame.setCol
  cases hc : f.colIdx c with
  | none => rfl
  | some j =>
      exfalso
      apply h
      rw [← idxOfCol_isSome_iff c f.cols]
      unfold Frame.colIdx at hc
      rw [hc]
      rfl

theorem addLagCols_cols : ∀ (preds : List String) (f : Frame),
    (∀ p ∈ preds, p ∈ f.cols) →
    (∀ p ∈ preds, (p ++ "_lag") ∉ f.cols) →
    (preds.map (fun p => p ++ "_lag")).Nodup →
    (addLagCols f preds).1.cols = f.cols ++ preds.map (fun p => p ++ "_lag") := by
  intro preds
  induction preds with
  | nil => intro f _ _ _; simp [addLagCols]
  | cons p rest ih =>
      intro f h1 h2 h3
      unfold addLagCols
      obtain ⟨s, hs⟩ := getCol_isSome f p (h1 p (List.mem_cons_self _ _))
      rw [hs]
      rw [List.map_cons, List.nodup_cons] at h3
      have hcols : (f.setCol (p ++ "_lag") (shift1 s)).cols = f.cols ++ [p ++ "_lag"] :=
        setCol_cols_of_new f _ _ (h2 p (List.mem_cons_self _ _))
      have g1 : ∀ q ∈ rest, q ∈ (f.setCol (p ++ "_lag") (shift1 s)).cols := by
        intro q hq
        rw [hcols]
        exact List.mem_append_left _ (h1 q (List.mem_cons_of_mem _ hq))
      have g2 : ∀ q ∈ rest, (q ++ "_lag") ∉ (f.setCol (p ++ "_lag") (shift1 s)).cols := by
        intro q hq
        rw [hcols]
        intro hmem
        rcases List.mem_append.1 hmem with hm | hm
        · exact h2 q (List.mem_cons_of_mem _ hq) hm
        · apply h3.1
          rw [← List.mem_singleton.1 hm]
          exact List.mem_map_of_mem _ hq
      rw [ih (f.setCol (p ++ "_lag") (shift1 s)) g1 g2 h3.2, hcols, List.map_cons,
        List.append_assoc]
      rfl

/-- C9 (amended): `fit_multilevel_model` mutates the frame it is given:
after a call with every predictor present and fresh lag-column names,
the frame as left by the call has the lag columns appended, hence
differs from the frame that was passed in.  The pipeline-level caller is
protected only because `generate_person_specific_network` sorts into a
fresh copy and mutates that copy: the caller's own frame comes back
unchanged from a pipeline call. -/
theorem fit_mutates_pipeline_copies :
    (∀ (oracle : FitOracle) (df : Frame) (symptom : String) (preds : List String),
       preds ≠ [] →
       (∀ p ∈ preds, p ∈ df.cols) →
       (∀ p ∈ preds, (p ++ "_lag") ∉ df.cols) →
       ((preds.map (fun p => p ++ "_lag")).Nodup) →
       ∃ r f1, fit_multilevel_model oracle df symptom preds = Except.ok (r, f1)
         ∧ f1.cols = df.cols ++ preds.map (fun p => p ++ "_lag") ∧ f1 ≠ df) ∧
    (∀ (oracle : FitOracle) (layoutFn : LayoutFn) (patient_df : Frame)
       (patient_id : String) (symptoms : List String) (threshold : ℚ)
       (fig : Fig) (f1 : Frame),
       generate_person_specific_network oracle layoutFn patient_df patient_id
           symptoms threshold = Except.ok (fig, f1) → f1 = patient_df) := by
  constructor
  · intro oracle df symptom preds hne h1 h2 h3
    have hok := addLagCols_ok preds df h1
    have hcols := addLagCols_cols preds df h1 h2 h3
    obtain ⟨df1, hopt⟩ : ∃ df1, addLagCols df preds = (df1, none) := by
      cases hlag : addLagCols df preds with
      | mk a b =>
          rw [hlag] at hok
          dsimp at hok
          subst hok
          exact ⟨a, rfl⟩
    rw [hopt] at hcols
    dsimp at hcols
    have hne2 : df1 ≠ df := by
      intro heq
      have hlen := congrArg (fun fr => fr.cols.length) heq
      dsimp at hlen
      rw [hcols, List.length_append, List.length_map] at hlen
      have : preds.length ≠ 0 := fun h0 => hne (List.length_eq_zero.1 h0)
      omega
    by_cases hlen : df1.dropna.rows.length < 5
    · refine ⟨none, df1, ?_, hcols, hne2⟩
      unfold fit_multilevel_model
      rw [hopt]
      dsimp only
      rw [if_pos hlen]
    · refine ⟨oracle df1.dropna symptom preds, df1, ?_, hcols, hne2⟩
      unfold fit_multilevel_model
      rw [hopt]
      dsimp only
      rw [if_neg hlen]
  · intro oracle layoutFn patient_df patient_id symptoms threshold fig f1 hok
    unfold generate_person_specific_network at hok
    cases hsort : sort_values patient_df "Timestamp" with
    | error e =>
        rw [hsort] at hok
        simp only [Except.bind, bind, Except.instMonad] at hok
        cases hok
    | ok dfp =>
        rw [hsort] at hok
        simp only [Except.bind, bind, Except.instMonad] at hok
        cases hbuild : buildCoefMatrixPSN oracle dfp symptoms with
        | error e =>
            rw [hbuild] at hok
            simp only [Except.bind] at hok
            cases hok
        | ok pr =>
            rw [hbuild] at hok
            simp only [Except.bind] at hok
            obtain ⟨M, f2⟩ := pr
            simp only [pure, Except.pure, Except.ok.injEq, Prod.mk.injEq] at hok
            exact hok.2.symm

/-- A tiny frame used to exhibit the estimator's in-place mutation. -/
def dfTiny : Frame :=
  { cols := ["PatientID", "a"], rows := [[Cell.str "P1", Cell.num 1]] }

/-- Counterexample for C9 as stated: after a direct estimator call the
frame differs from the frame that was passed in — the lag column was
appended onto the estimator's input frame itself, not only onto an
owned copy. -/
theorem fit_mutation_counterexample :
    (match fit_multilevel_model oracleNone dfTiny "a" ["a"] with
      | Except.ok (_, f1) => f1
      | Except.error _ => dfTiny)
      = { cols := ["PatientID", "a", "a_lag"],
          rows := [[Cell.str "P1", Cell.num 1, Cell.na]] } ∧
    ({ cols := ["PatientID", "a", "a_lag"],
        rows := [[Cell.str "P1", Cell.num 1, Cell.na]] } : Frame) ≠ dfTiny := by
  exact ⟨rfl, by decide⟩

/-- Witness for C9: the estimator part at a concrete one-predictor frame
and the pipeline part at the concrete seven-row frame. -/
theorem fit_mutates_pipeline_copies_witness :
    ((["a"] : List String) ≠ [] ∧ (∀ p ∈ (["a"] : List String), p ∈ dfTiny.cols) ∧
     (∀ p ∈ (["a"] : List String), (p ++ "_lag") ∉ dfTiny.cols) ∧
     ((["a"] : List String).map (fun p => p ++ "_lag")).Nodup) ∧
    (∃ r f1, fit_multilevel_model oracleNone dfTiny "a" ["a"] = Except.ok (r, f1)
       ∧ f1.cols = dfTiny.cols ++ (["a"] : List String).map (fun p => p ++ "_lag")
       ∧ f1 ≠ dfTiny) ∧
    (∀ fig f1, generate_person_specific_network oracleSelf layoutZero dfSeven "P1"
        ["a", "b"] (mkRat 3 10) = Except.ok (fig, f1) → f1 = dfSeven) :=
  ⟨⟨by decide, by decide, by decide, by decide⟩,
   fit_mutates_pipeline_copies.1 oracleNone dfTiny "a" ["a"]
     (by decide) (by decide) (by decide) (by decide),
   fun fig f1 h => fit_mutates_pipeline_copies.2 oracleSelf layoutZero dfSeven
     "P1" ["a", "b"] (mkRat 3 10) fig f1 h⟩

/-!
Behaviour of the pipeline when a tracked symptom is absent from the
input columns: the lag loop raises `KeyError` at the missing predictor,
and the exception escapes `generate_person_specific_network`.
-/

theorem mem_setCol_cols (f : Frame) (c : String) (s : List Cell) (d : String) :
    d ∈ (f.setCol c s).cols → d ∈ f.cols ∨ d = c := by
  unfold Frame.setCol
  split
  · exact Or.inl
  · intro h
    rcases List.mem_append.1 h with h | h
    · exact Or.inl h
    · exact Or.inr (List.mem_singleton.1 h)

theorem mem_of_getCol_some (f : Frame) (c : String) (s : List Cell)
    (h : f.getCol c = some s) : c ∈ f.cols := by
  rw [← idxOfCol_isSome_iff c f.cols]
  unfold Frame.getCol Frame.colIdx at h
  cases hf : idxOfCol c f.cols with
  | none => rw [hf] at h; simp at h
  | some j => rfl

theorem addLagCols_keeps_missing (x : String) (hx : ∀ q : String, x ≠ q ++ "_lag") :
    ∀ (preds : List String) (f : Frame),
      x ∉ f.cols → x ∉ (addLagCols f preds).1.cols := by
  intro preds
  induction preds with
  | nil => intro f h; exact h
  | cons p rest ih =>
      intro f h
      unfold addLagCols
      cases hg : f.getCol p with
      | none => exact h
      | some s =>
          apply ih
          intro hmem
          rcases mem_setCol_cols f (p ++ "_lag") (shift1 s) x hmem with hm | hm
          · exact h hm
          · exact hx p hm

theorem addLagCols_missing (x : String) (hx : ∀ q : String, x ≠ q ++ "_lag") :
    ∀ (preds : List String) (f : Frame), x ∈ preds → x ∉ f.cols →
      ∃ c, (addLagCols f preds).2 = some c := by
  intro preds
  induction preds with
  | nil => intro f h; simp at h
  | cons p rest ih =>
      intro f hmem h
      unfold addLagCols
      cases hg : f.getCol p with
      | none => exact ⟨p, rfl⟩
      | some s =>
          rcases List.mem_cons.1 hmem with rfl | hmem2
          · exact absurd (mem_of_getCol_some f x s hg) h
          · apply ih _ hmem2
            intro hm
            rcases mem_setCol_cols f (p ++ "_lag") (shift1 s) x hm with hm2 | hm2
            · exact h hm2
            · exact hx p hm2

theorem fit_errors_of_missing (oracle : FitOracle) (df : Frame) (symptom : String)
    (preds : List String) (x : String) (hx : ∀ q : String, x ≠ q ++ "_lag")
    (hmem : x ∈ preds) (hcols : x ∉ df.cols) :
    ∃ c, fit_multilevel_model oracle df symptom preds
      = Except.error (PyError.keyError c) := by
  obtain ⟨c, hc⟩ := addLagCols_missing x hx preds df hmem hcols
  refine ⟨c, ?_⟩
  unfold fit_multilevel_model
  cases hlag : addLagCols df preds with
  | mk a b =>
      rw [hlag] at hc
      dsimp at hc
      subst hc
      rfl

theorem fit_ok_frame (oracle : FitOracle) (df : Frame) (symptom : String)
    (preds : List String) (r : Option FitResult) (f1 : Frame)
    (h : fit_multilevel_model oracle df symptom preds = Except.ok (r, f1)) :
    f1 = (addLagCols df preds).1 := by
  unfold fit_multilevel_model at h
  cases hlag : addLagCols df preds with
  | mk a b =>
      rw [hlag] at h
      cases b with
      | some p => cases h
      | none =>
          dsimp only at h
          split at h
          · injection h with h
            injection h with _ h
            rw [h]
          · injection h with h
            injection h with _ h
            rw [h]

theorem psnStep_ok_frame (oracle : FitOracle) (symptoms : List String)
    (acc : CoefMatrix × Frame) (symptom : String) (M1 : CoefMatrix) (f1 : Frame)
    (h : psnStep oracle symptoms acc symptom = Except.ok (M1, f1)) :
    f1 = (addLagCols acc.2 (symptoms.erase symptom)).1 := by
  simp only [psnStep] at h
  cases hfit : fit_multilevel_model oracle acc.2 symptom (symptoms.erase symptom) with
  | error e =>
      rw [hfit] at h
      simp only [Except.bind, bind, Except.instMonad] at h
      cases h
  | ok pr =>
      rw [hfit] at h
      simp only [Except.bind, bind, Except.instMonad] at h
      obtain ⟨result, df1⟩ := pr
      have hdf1 : df1 = (addLagCols acc.2 (symptoms.erase symptom)).1 :=
        fit_ok_frame oracle acc.2 symptom (symptoms.erase symptom) result df1 hfit
      cases result with
      | some res =>
          simp only [pure, Except.pure, Except.ok.injEq, Prod.mk.injEq] at h
          rw [← h.2]
          exact hdf1
      | none =>
          simp only [pure, Except.pure, Except.ok.injEq, Prod.mk.injEq] at h
          rw [← h.2]
          exact hdf1

theorem psn_fold_errors (oracle : FitOracle) (symptoms : List String) (x : String)
    (hx : ∀ q : String, x ≠ q ++ "_lag") (hxs : x ∈ symptoms)
    (hnd : symptoms.Nodup) :
    ∀ (L : List String) (acc : CoefMatrix × Frame),
      (∃ y ∈ L, y ≠ x) → x ∉ acc.2.cols →
      ∃ c, L.foldlM (psnStep oracle symptoms) acc
        = Except.error (PyError.keyError c) := by
  intro L
  induction L with
  | nil =>
      rintro acc ⟨y, hy, _⟩ _
      simp at hy
  | cons x0 rest ih =>
      rintro acc ⟨y, hy, hyx⟩ hmiss
      rw [List.foldlM_cons]
      by_cases hx0 : x0 = x
      · have hyrest : y ∈ rest := by
          rcases List.mem_cons.1 hy with rfl | h
          · exact absurd hx0 hyx
          · exact h
        cases hstep : psnStep oracle symptoms acc x0 with
        | error e =>
            cases e with
            | keyError c => exact ⟨c, rfl⟩
        | ok acc2 =>
            obtain ⟨M2, f2⟩ := acc2
            have hmiss2 : x ∉ f2.cols := by
              rw [psnStep_ok_frame oracle symptoms acc x0 M2 f2 hstep]
              exact addLagCols_keeps_missing x hx _ _ hmiss
            simp only [Except.bind, bind, Except.instMonad]
            exact ih (M2, f2) ⟨y, hyrest, hyx⟩ hmiss2
      · have hxp : x ∈ symptoms.erase x0 := by
          rw [List.Nodup.mem_erase_iff hnd]
          exact ⟨fun h => hx0 h.symm, hxs⟩
        obtain ⟨c, hc⟩ := fit_errors_of_missing oracle acc.2 x0
          (symptoms.erase x0) x hx hxp hmiss
        refine ⟨c, ?_⟩
        have hstep : psnStep oracle symptoms acc x0
            = Except.error (PyError.keyError c) := by
          simp only [psnStep]
          rw [hc]
          rfl
        rw [hstep]
        rfl

theorem sort_values_cols (f : Frame) (c : String) (g : Frame)
    (h : sort_values f c = Except.ok g) : g.cols = f.cols := by
  unfold sort_values at h
  cases hc : f.colIdx c with
  | none => rw [hc] at h; cases h
  | some j =>
      rw [hc] at h
      injection h with h
      rw [← h]

/-- C7 (amended): when a requested tracked symptom is absent from the
input columns (and there is at least one other symptom, so the missing
name occurs in some fit's predictor list), the core raises a `KeyError`
out of `generate_person_specific_network` instead of excluding the
symptom with a warning; the exclusion-with-warning behaviour lives in
the dashboard caller, which filters the symptom list against the
available columns before invoking the core. -/
theorem genPSN_unknown_symptom_raises (oracle : FitOracle) (layoutFn : LayoutFn)
    (patient_df : Frame) (patient_id : String) (symptoms : List String)
    (threshold : ℚ) (x : String) (hnd : symptoms.Nodup) (hxs : x ∈ symptoms)
    (hxcols : x ∉ patient_df.cols) (hx : ∀ q : String, x ≠ q ++ "_lag")
    (h2 : 2 ≤ symptoms.length) :
    ∃ c, generate_person_specific_network oracle layoutFn patient_df patient_id
        symptoms threshold = Except.error (PyError.keyError c) := by
  unfold generate_person_specific_network
  cases hsort : sort_values patient_df "Timestamp" with
  | error e =>
      cases e with
      | keyError c => exact ⟨c, rfl⟩
  | ok dfp =>
      have hdfp : dfp.cols = patient_df.cols := sort_values_cols _ _ _ hsort
      have hy : ∃ y ∈ symptoms, y ≠ x := by
        cases symptoms with
        | nil => simp at hxs
        | cons a t =>
            cases t with
            | nil => simp at h2
            | cons b t2 =>
                by_cases hax : a = x
                · refine ⟨b, List.mem_cons_of_mem _ (List.mem_cons_self _ _), ?_⟩
                  subst hax
                  rw [List.nodup_cons] at hnd
                  intro hbx
                  apply hnd.1
                  rw [← hbx]
                  exact List.mem_cons_self _ _
                · exact ⟨a, List.mem_cons_self _ _, hax⟩
      obtain ⟨c, hc⟩ := psn_fold_errors oracle symptoms x hx hxs hnd symptoms
        (initCoefMatrix symptoms, dfp) hy
        (by show x ∉ dfp.cols; rw [hdfp]; exact hxcols)
      refine ⟨c, ?_⟩
      have hb : buildCoefMatrixPSN oracle dfp symptoms
          = Except.error (PyError.keyError c) := hc
      simp only [Except.bind, bind, Except.instMonad, hb]

/-- A 7-row frame that has column a but no column zz. -/
def dfA : Frame :=
  { cols := ["PatientID", "Timestamp", "a"],
    rows := (List.range 7).map (fun k => [Cell.str "P1", Cell.num k, Cell.num k]) }

/-- Counterexample for C7 as stated: requesting tracked symptoms a and
zz on a table with no zz column makes the core raise `KeyError` for zz;
no warning-and-exclusion happens and no figure is produced. -/
theorem genPSN_unknown_symptom_counterexample :
    generate_person_specific_network oracleSelf layoutZero dfA "P1" ["a", "zz"]
        (mkRat 3 10) = Except.error (PyError.keyError "zz") := rfl

/-- Witness for C7 at the concrete frame, symptom list and missing name. -/
theorem genPSN_unknown_symptom_raises_witness :
    ((["a", "zz"] : List String).Nodup ∧ "zz" ∈ (["a", "zz"] : List String) ∧
     "zz" ∉ dfA.cols ∧ (∀ q : String, "zz" ≠ q ++ "_lag") ∧
     2 ≤ (["a", "zz"] : List String).length) ∧
    (∃ c, generate_person_specific_network oracleSelf layoutZero dfA "P1"
        ["a", "zz"] (mkRat 3 10) = Except.error (PyError.keyError c)) := by
  have hx : ∀ q : String, "zz" ≠ q ++ "_lag" := by
    intro q h
    have h2 := congrArg String.length h
    rw [String.length_append] at h2
    have e1 : ("zz" : String).length = 2 := rfl
    have e2 : ("_lag" : String).length = 4 := rfl
    rw [e1, e2] at h2
    omega
  exact ⟨⟨by decide, by decide, by decide, hx, by decide⟩,
    genPSN_unknown_symptom_raises oracleSelf layoutZero dfA "P1" ["a", "zz"]
      (mkRat 3 10) "zz" (by decide) (by decide) (by decide) hx (by decide)⟩

/-!
Behaviour of the pipeline on a subject with no rows: every fit fails
fast on zero usable rows, the matrix stays all-absent, and an edgeless
figure is returned — nothing is raised.
-/

theorem setCol_rows_nil (f : Frame) (c : String) (s : List Cell)
    (h : f.rows = []) : (f.setCol c s).rows = [] := by
  unfold Frame.setCol
  split <;> rw [h] <;> rfl

theorem addLagCols_rows_nil : ∀ (preds : List String) (f : Frame),
    f.rows = [] → (addLagCols f preds).1.rows = [] := by
  intro preds
  induction preds with
  | nil => intro f h; exact h
  | cons p rest ih =>
      intro f h
      unfold addLagCols
      cases hg : f.getCol p with
      | none => exact h
      | some s => exact ih _ (setCol_rows_nil f _ _ h)

theorem addLagCols_cols_sub : ∀ (preds : List String) (f : Frame) (d : String),
    d ∈ f.cols → d ∈ (addLagCols f preds).1.cols := by
  intro preds
  induction preds with
  | nil => intro f d h; exact h
  | cons p rest ih =>
      intro f d h
      unfold addLagCols
      cases hg : f.getCol p with
      | none => exact h
      | some s => exact ih _ d (setCol_cols_sub f _ _ d h)

theorem set_none_inv (M : CoefMatrix) (o p : String) (symptoms : List String)
    (h1 : M.index = symptoms) (h2 : M.cols = symptoms)
    (h3 : M.entries.length = symptoms.length)
    (h4 : ∀ row ∈ M.entries, ∀ c2 ∈ row, c2 = none) :
    (M.set o p none).index = symptoms ∧ (M.set o p none).cols = symptoms ∧
    (M.set o p none).entries.length = symptoms.length ∧
    (∀ row ∈ (M.set o p none).entries, ∀ c2 ∈ row, c2 = none) := by
  refine ⟨h1, h2, ?_, ?_⟩
  · show ((M.index.zip M.entries).map _).length = symptoms.length
    rw [List.length_map, List.length_zip, h1, h3]
    exact min_self _
  · intro row hrow c2 hc2
    unfold CoefMatrix.set at hrow
    dsimp at hrow
    rcases List.mem_map.1 hrow with ⟨pr, hpr, hrw⟩
    obtain ⟨a, b⟩ := pr
    have hb : b ∈ M.entries := (List.of_mem_zip hpr).2
    by_cases ho : a = o
    · rw [← hrw] at hc2
      dsimp at hc2
      rw [if_pos ho] at hc2
      rcases List.mem_map.1 hc2 with ⟨q, hq, hqw⟩
      obtain ⟨d, e⟩ := q
      have he : e ∈ b := (List.of_mem_zip hq).2
      by_cases hp : d = p
      · rw [← hqw]
        dsimp
        rw [if_pos hp]
      · rw [← hqw]
        dsimp
        rw [if_neg hp]
        exact h4 b hb e he
    · rw [← hrw] at hc2
      dsimp at hc2
      rw [if_neg ho] at hc2
      exact h4 b hb c2 hc2

theorem setNoneRow_full_inv (o : String) (symptoms : List String) :
    ∀ (preds : List String) (M : CoefMatrix),
      M.index = symptoms → M.cols = symptoms →
      M.entries.length = symptoms.length →
      (∀ row ∈ M.entries, ∀ c2 ∈ row, c2 = none) →
      ((preds.foldl (fun M1 p => M1.set o p none) M).index = symptoms ∧
       (preds.foldl (fun M1 p => M1.set o p none) M).cols = symptoms ∧
       (preds.foldl (fun M1 p => M1.set o p none) M).entries.length = symptoms.length ∧
       (∀ row ∈ (preds.foldl (fun M1 p => M1.set o p none) M).entries,
          ∀ c2 ∈ row, c2 = none)) := by
  intro preds
  induction preds with
  | nil => intro M h1 h2 h3 h4; exact ⟨h1, h2, h3, h4⟩
  | cons p rest ih =>
      intro M h1 h2 h3 h4
      rw [List.foldl_cons]
      obtain ⟨g1, g2, g3, g4⟩ := set_none_inv M o p symptoms h1 h2 h3 h4
      exact ih _ g1 g2 g3 g4

theorem initCoefMatrix_inv (symptoms : List String) :
    (initCoefMatrix symptoms).index = symptoms ∧
    (initCoefMatrix symptoms).cols = symptoms ∧
    (initCoefMatrix symptoms).entries.length = symptoms.length ∧
    (∀ row ∈ (initCoefMatrix symptoms).entries, ∀ c2 ∈ row, c2 = none) := by
  refine ⟨rfl, rfl, by simp [initCoefMatrix], ?_⟩
  intro row hrow c2 hc2
  rcases List.mem_map.1 hrow with ⟨_, _, hr⟩
  rw [← hr] at hc2
  rcases List.mem_map.1 hc2 with ⟨_, _, hc⟩
  exact hc.symm

theorem psnStep_empty (oracle : FitOracle) (symptoms : List String)
    (dfc : List String) (hsy : ∀ s2 ∈ symptoms, s2 ∈ dfc)
    (acc : CoefMatrix × Frame) (symptom : String)
    (hrows : acc.2.rows = []) (hcols : ∀ d ∈ dfc, d ∈ acc.2.cols)
    (h1 : acc.1.index = symptoms) (h2 : acc.1.cols = symptoms)
    (h3 : acc.1.entries.length = symptoms.length)
    (h4 : ∀ row ∈ acc.1.entries, ∀ c2 ∈ row, c2 = none) :
    ∃ M1 f1, psnStep oracle symptoms acc symptom = Except.ok (M1, f1) ∧
      f1.rows = [] ∧ (∀ d ∈ dfc, d ∈ f1.cols) ∧
      M1.index = symptoms ∧ M1.cols = symptoms ∧
      M1.entries.length = symptoms.length ∧
      (∀ row ∈ M1.entries, ∀ c2 ∈ row, c2 = none) := by
  have hpred : ∀ p ∈ symptoms.erase symptom, p ∈ acc.2.cols := by
    intro p hp
    exact hcols p (hsy p (List.erase_subset _ _ hp))
  have hok := addLagCols_ok (symptoms.erase symptom) acc.2 hpred
  obtain ⟨df1, hopt⟩ : ∃ df1,
      addLagCols acc.2 (symptoms.erase symptom) = (df1, none) := by
    cases hlag : addLagCols acc.2 (symptoms.erase symptom) with
    | mk a b =>
        rw [hlag] at hok
        dsimp at hok
        subst hok
        exact ⟨a, rfl⟩
  have hdf1rows : df1.rows = [] := by
    have := addLagCols_rows_nil (symptoms.erase symptom) acc.2 hrows
    rw [hopt] at this
    exact this
  have hdf1cols : ∀ d ∈ dfc, d ∈ df1.cols := by
    intro d hd
    have := addLagCols_cols_sub (symptoms.erase symptom) acc.2 d (hcols d hd)
    rw [hopt] at this
    exact this
  have hfit : fit_multilevel_model oracle acc.2 symptom (symptoms.erase symptom)
      = Except.ok (none, df1) := by
    unfold fit_multilevel_model
    rw [hopt]
    dsimp only
    rw [if_pos]
    unfold Frame.dropna
    rw [hdf1rows]
    simp
  obtain ⟨g1, g2, g3, g4⟩ := setNoneRow_full_inv symptom symptoms
    (symptoms.erase symptom) acc.1 h1 h2 h3 h4
  refine ⟨_, df1, ?_, hdf1rows, hdf1cols, g1, g2, g3, g4⟩
  simp only [psnStep, hfit, Except.bind, bind, Except.instMonad]
  rfl

theorem psn_fold_empty (oracle : FitOracle) (symptoms : List String)
    (dfc : List String) (hsy : ∀ s2 ∈ symptoms, s2 ∈ dfc) :
    ∀ (L : List String) (acc : CoefMatrix × Frame),
      acc.2.rows = [] → (∀ d ∈ dfc, d ∈ acc.2.cols) →
      acc.1.index = symptoms → acc.1.cols = symptoms →
      acc.1.entries.length = symptoms.length →
      (∀ row ∈ acc.1.entries, ∀ c2 ∈ row, c2 = none) →
      ∃ M f1, L.foldlM (psnStep oracle symptoms) acc = Except.ok (M, f1) ∧
        M.index = symptoms ∧ M.cols = symptoms ∧
        M.entries.length = symptoms.length ∧
        (∀ row ∈ M.entries, ∀ c2 ∈ row, c2 = none) := by
  intro L
  induction L with
  | nil =>
      intro acc _ _ h1 h2 h3 h4
      exact ⟨acc.1, acc.2, rfl, h1, h2, h3, h4⟩
  | cons x rest ih =>
      intro acc hrows hcols h1 h2 h3 h4
      obtain ⟨M1, f1, hstep, k0, k1, k2, k3, k4, k5⟩ :=
        psnStep_empty oracle symptoms dfc hsy acc x hrows hcols h1 h2 h3 h4
      rw [List.foldlM_cons, hstep]
      simp only [Except.bind, bind, Except.instMonad]
      exact ih (M1, f1) k0 k1 k2 k3 k4 k5

theorem matrixEdges_nil (M : CoefMatrix) (t : ℚ)
    (h : ∀ row ∈ M.entries, ∀ c2 ∈ row, c2 = none) : matrixEdges M t = [] := by
  unfold matrixEdges
  rw [List.flatten_eq_nil_iff]
  intro l hl
  rcases List.mem_map.1 hl with ⟨pr, hpr, hrw⟩
  obtain ⟨a, b⟩ := pr
  rw [← hrw]
  unfold cellEdges
  rw [List.filterMap_eq_nil_iff]
  intro q hq
  obtain ⟨d, e⟩ := q
  have he : e ∈ b := (List.of_mem_zip hq).2
  have : e = none := h b (List.of_mem_zip hpr).2 e he
  rw [this]

/-- C8 (amended): when the subject's frame has no rows at all (but the
timestamp column and the tracked symptom columns exist), the entry
point does not raise: every per-symptom fit fails fast on zero usable
rows, the whole coefficient matrix stays absent, and a figure of the
edgeless network on exactly the tracked symptom nodes is returned. -/
theorem genPSN_empty_subject (oracle : FitOracle) (layoutFn : LayoutFn)
    (patient_df : Frame) (patient_id : String) (symptoms : List String)
    (threshold : ℚ) (hrows : patient_df.rows = [])
    (hts : "Timestamp" ∈ patient_df.cols)
    (hsy : ∀ s2 ∈ symptoms, s2 ∈ patient_df.cols) (hnd : symptoms.Nodup) :
    ∃ fig f1, generate_person_specific_network oracle layoutFn patient_df
        patient_id symptoms threshold = Except.ok (fig, f1) ∧
      f1 = patient_df ∧ fig.graph.edges = [] ∧
      (∀ m, m ∈ fig.graph.nodes ↔ m ∈ symptoms) := by
  have hts2 := (idxOfCol_isSome_iff "Timestamp" patient_df.cols).2 hts
  obtain ⟨j, hj⟩ : ∃ j, patient_df.colIdx "Timestamp" = some j := by
    unfold Frame.colIdx
    cases hf : idxOfCol "Timestamp" patient_df.cols with
    | none => rw [hf] at hts2; simp at hts2
    | some j => exact ⟨j, rfl⟩
  have hsort : sort_values patient_df "Timestamp"
      = Except.ok { patient_df with rows := sortRowsBy j patient_df.rows } := by
    unfold sort_values
    rw [hj]
  have hsortrows : sortRowsBy j patient_df.rows = [] := by
    rw [hrows]
    rfl
  obtain ⟨i1, i2, i3, i4⟩ := initCoefMatrix_inv symptoms
  obtain ⟨M, f2, hfold, k1, k2, k3, k4⟩ := psn_fold_empty oracle symptoms
    patient_df.cols hsy symptoms
    (initCoefMatrix symptoms, { patient_df with rows := sortRowsBy j patient_df.rows })
    (by dsimp; exact hsortrows) (by dsimp; exact fun d hd => hd) i1 i2 i3 i4
  have hndi : M.index.Nodup := by rw [k1]; exact hnd
  have hndc : M.cols.Nodup := by rw [k2]; exact hnd
  refine ⟨plot_network layoutFn (construct_network M threshold)
      ("Réseau de Symptômes pour " ++ patient_id), patient_df, ?_, rfl, ?_, ?_⟩
  · unfold generate_person_specific_network
    rw [hsort]
    simp only [Except.bind, bind, Except.instMonad]
    have hb : buildCoefMatrixPSN oracle
        { patient_df with rows := sortRowsBy j patient_df.rows } symptoms
        = Except.ok (M, f2) := hfold
    rw [hb]
    rfl
  · show (construct_network M threshold).edges = []
    rw [construct_network_edges M threshold hndi hndc]
    exact matrixEdges_nil M threshold k4
  · intro m
    show m ∈ (construct_network M threshold).nodes ↔ m ∈ symptoms
    rw [mem_construct_network_nodes M threshold
      (by rw [k1, k2]; exact fun c hc => hc) (by rw [k1, k3])]
    rw [k1]

/-- The empty single-subject frame used by the C8 witness. -/
def dfEmpty : Frame :=
  { cols := ["PatientID", "Timestamp", "a", "b"], rows := [] }

/-- Counterexample for C8 as stated: on a subject with no rows the
entry point returns a figure of the edgeless two-node network — it does
not raise any error. -/
theorem genPSN_empty_subject_counterexample :
    generate_person_specific_network oracleSelf layoutZero dfEmpty "PX"
        ["a", "b"] (mkRat 3 10)
      = Except.ok
          ({ title := "Réseau de Symptômes pour PX",
             graph := { nodes := ["a", "b"], edges := [] },
             pos := [("a", (0, 0)), ("b", (0, 0))],
             nodeAdjacencies := [0, 0] }, dfEmpty) := rfl

/-- Witness for C8 at the concrete empty frame. -/
theorem genPSN_empty_subject_witness :
    (dfEmpty.rows = [] ∧ "Timestamp" ∈ dfEmpty.cols ∧
     (∀ s2 ∈ (["a", "b"] : List String), s2 ∈ dfEmpty.cols) ∧
     (["a", "b"] : List String).Nodup) ∧
    (∃ fig f1, generate_person_specific_network oracleSelf layoutZero dfEmpty
        "PX" ["a", "b"] (mkRat 3 10) = Except.ok (fig, f1) ∧
      f1 = dfEmpty ∧ fig.graph.edges = [] ∧
      (∀ m, m ∈ fig.graph.nodes ↔ m ∈ (["a", "b"] : List String))) :=
  ⟨⟨rfl, by decide, by decide, by decide⟩,
    genPSN_empty_subject oracleSelf layoutZero dfEmpty "PX" ["a", "b"]
      (mkRat 3 10) rfl (by decide) (by decide) (by decide)⟩

/-!
Row policy on failed fits: the services pipeline leaves failed rows
absent, while `analyze_network.build_coef_matrix` writes zeros.
-/

theorem fit_none_oracle (df : Frame) (s : String) (preds : List String)
    (r : Option FitResult) (f1 : Frame)
    (h : fit_multilevel_model oracleNone df s preds = Except.ok (r, f1)) :
    r = none := by
  unfold fit_multilevel_model at h
  cases hlag : addLagCols df preds with
  | mk a b =>
      rw [hlag] at h
      cases b with
      | some p => cases h
      | none =>
          dsimp only at h
          split at h <;>
            (simp only [Except.ok.injEq, Prod.mk.injEq] at h
             exact h.1.symm)

theorem setNoneRow_getall (o : String) :
    ∀ (preds : List String) (M : CoefMatrix),
      (∀ s p2, M.get s p2 = none) →
      ∀ s p2, (preds.foldl (fun M1 p => M1.set o p none) M).get s p2 = none := by
  intro preds
  induction preds with
  | nil => intro M h; exact h
  | cons p rest ih =>
      intro M h
      rw [List.foldl_cons]
      apply ih
      intro s p2
      rcases get_set_split M o p none s p2 with h1 | ⟨h1, _, _⟩
      · rw [h1]; exact h s p2
      · exact h1

theorem psn_fold_allnone (symptoms : List String) :
    ∀ (L : List String) (acc : CoefMatrix × Frame),
      (∀ s p, acc.1.get s p = none) →
      ∀ M f1, L.foldlM (psnStep oracleNone symptoms) acc = Except.ok (M, f1) →
        ∀ s p, M.get s p = none := by
  intro L
  induction L with
  | nil =>
      intro acc h M f1 hok
      simp only [List.foldlM_nil, pure, Except.pure, Except.ok.injEq] at hok
      subst hok
      exact h
  | cons x rest ih =>
      intro acc h M f1 hok
      rw [List.foldlM_cons] at hok
      cases hstep : psnStep oracleNone symptoms acc x with
      | error e =>
          rw [hstep] at hok
          simp only [Except.bind, bind, Except.instMonad] at hok
          cases hok
      | ok acc2 =>
          rw [hstep] at hok
          simp only [Except.bind, bind, Except.instMonad] at hok
          obtain ⟨M2, f2⟩ := acc2
          have hM2 : ∀ s p, M2.get s p = none := by
            simp only [psnStep] at hstep
            cases hfit : fit_multilevel_model oracleNone acc.2 x
                (symptoms.erase x) with
            | error e =>
                rw [hfit] at hstep
                simp only [Except.bind, bind, Except.instMonad] at hstep
                cases hstep
            | ok pr =>
                rw [hfit] at hstep
                simp only [Except.bind, bind, Except.instMonad] at hstep
                obtain ⟨result, df1⟩ := pr
                have hres : result = none :=
                  fit_none_oracle acc.2 x (symptoms.erase x) result df1 hfit
                subst hres
                simp only [pure, Except.pure, Except.ok.injEq, Prod.mk.injEq] at hstep
                rw [← hstep.1]
                exact setNoneRow_getall x (symptoms.erase x) acc.1 h
          exact ih (M2, f2) hM2 M f1 hok

theorem get_set_eq (M : CoefMatrix) (o p : String) (v : Option ℚ)
    (ho : o ∈ M.index) (hp : p ∈ M.cols)
    (hlen : M.entries.length = M.index.length)
    (hrows : ∀ row ∈ M.entries, row.length = M.cols.length) :
    (M.set o p v).get o p = v := by
  unfold CoefMatrix.set CoefMatrix.get
  dsimp only
  rw [zip_map_zip, find?_fst_map_snd]
  have hfst : (M.index.zip M.entries).map Prod.fst = M.index :=
    List.map_fst_zip _ _ (le_of_eq hlen.symm)
  cases hfind : (M.index.zip M.entries).find? (fun q => q.1 == o) with
  | none =>
      exfalso
      rw [List.find?_eq_none] at hfind
      have hmem : o ∈ (M.index.zip M.entries).map Prod.fst := by
        rw [hfst]
        exact ho
      rcases List.mem_map.1 hmem with ⟨pr, hpr, hpr1⟩
      exact hfind pr hpr (by simp [hpr1])
  | some pr =>
      obtain ⟨a, b⟩ := pr
      have hao : a = o := by simpa using List.find?_some hfind
      have hbm : b ∈ M.entries := (List.of_mem_zip (List.mem_of_find?_eq_some hfind)).2
      have hblen : b.length = M.cols.length := hrows b hbm
      dsimp only [Option.map]
      rw [if_pos hao]
      rw [zip_map_zip, find?_fst_map_snd]
      have hfst2 : (M.cols.zip b).map Prod.fst = M.cols :=
        List.map_fst_zip _ _ (le_of_eq hblen.symm)
      cases hfind2 : (M.cols.zip b).find? (fun q => q.1 == p) with
      | none =>
          exfalso
          rw [List.find?_eq_none] at hfind2
          have hmem : p ∈ (M.cols.zip b).map Prod.fst := by
            rw [hfst2]
            exact hp
          rcases List.mem_map.1 hmem with ⟨q, hq, hq1⟩
          exact hfind2 q hq (by simp [hq1])
      | some q =>
          have hqp : q.1 = p := by simpa using List.find?_some hfind2
          dsimp only [Option.map]
          rw [if_pos hqp]

theorem set_dims (M : CoefMatrix) (o p : String) (v : Option ℚ)
    (hlen : M.entries.length = M.index.length)
    (hrows : ∀ row ∈ M.entries, row.length = M.cols.length) :
    (M.set o p v).entries.length = (M.set o p v).index.length ∧
    (∀ row ∈ (M.set o p v).entries, row.length = (M.set o p v).cols.length) := by
  constructor
  · show ((M.index.zip M.entries).map _).length = M.index.length
    rw [List.length_map, List.length_zip, hlen]
    exact min_self _
  · intro row hrow
    show row.length = M.cols.length
    unfold CoefMatrix.set at hrow
    dsimp at hrow
    rcases List.mem_map.1 hrow with ⟨pr, hpr, hrw⟩
    obtain ⟨a, b⟩ := pr
    have hb := (List.of_mem_zip hpr).2
    by_cases ho : a = o
    · rw [← hrw]
      dsimp
      rw [if_pos ho, List.length_map, List.length_zip, hrows b hb]
      exact min_self _
    · rw [← hrw]
      dsimp
      rw [if_neg ho]
      exact hrows b hb

theorem setRow_get_other (x : String) :
    ∀ (ps : List (String × Option ℚ)) (M : CoefMatrix) (s p2 : String), s ≠ x →
      (ps.foldl (fun M1 q => M1.set x q.1 q.2) M).get s p2 = M.get s p2 := by
  intro ps
  induction ps with
  | nil => intro M s p2 _; rfl
  | cons q rest ih =>
      intro M s p2 hs
      rw [List.foldl_cons, ih _ s p2 hs, get_set_of_ne]
      rintro ⟨rfl, _⟩
      exact hs rfl

theorem setRow_get_col_other (x : String) :
    ∀ (ps : List (String × Option ℚ)) (M : CoefMatrix) (s c : String),
      c ∉ ps.map Prod.fst →
      (ps.foldl (fun M1 q => M1.set x q.1 q.2) M).get s c = M.get s c := by
  intro ps
  induction ps with
  | nil => intro M s c _; rfl
  | cons q rest ih =>
      intro M s c hc
      rw [List.map_cons] at hc
      rw [List.foldl_cons, ih _ s c (fun h => hc (List.mem_cons_of_mem _ h)),
        get_set_of_ne]
      rintro ⟨_, rfl⟩
      exact hc (List.mem_cons_self _ _)

theorem setRow_get_self (x : String) :
    ∀ (ps : List (String × Option ℚ)) (M : CoefMatrix),
      (ps.map Prod.fst).Nodup →
      x ∈ M.index → (∀ pr ∈ ps, pr.1 ∈ M.cols) →
      M.entries.length = M.index.length →
      (∀ row ∈ M.entries, row.length = M.cols.length) →
      ∀ pr ∈ ps, (ps.foldl (fun M1 q => M1.set x q.1 q.2) M).get x pr.1 = pr.2 := by
  intro ps
  induction ps with
  | nil => intro M _ _ _ _ _ pr hpr; simp at hpr
  | cons q rest ih =>
      intro M hnd hx hcols hlen hrows pr hpr
      rw [List.map_cons, List.nodup_cons] at hnd
      rw [List.foldl_cons]
      obtain ⟨d1, d2⟩ := set_dims M x q.1 q.2 hlen hrows
      rcases List.mem_cons.1 hpr with rfl | hpr2
      · rw [setRow_get_col_other x rest _ x pr.1 hnd.1]
        exact get_set_eq M x pr.1 pr.2 hx (hcols pr (List.mem_cons_self _ _))
          hlen hrows
      · exact ih (M.set x q.1 q.2) hnd.2 hx
          (fun pr2 hpr2b => hcols pr2 (List.mem_cons_of_mem _ hpr2b)) d1 d2 pr hpr2

theorem zip_self_map {β : Type} (g : String → β) :
    ∀ l : List String, l.zip (l.map g) = l.map (fun a => (a, g a)) := by
  intro l
  induction l with
  | nil => rfl
  | cons a rest ih =>
      simp only [List.map_cons, List.zip_cons_cons, ih]

theorem fits_none_oracle (df : Frame) (s : String) (preds : List String) :
    (fit_multilevel_models oracleNone df s preds).1 = Except.error () := by
  unfold fit_multilevel_models
  cases hlag : addLagCols df preds with
  | mk a b =>
      cases b with
      | some p => rfl
      | none => rfl

theorem bcmStep_none (symptoms : List String) (acc : CoefMatrix × Frame)
    (symptom : String) :
    ∃ f1, bcmStep oracleNone symptoms acc symptom
      = (setRowVals acc.1 symptom symptoms
          (symptoms.map (fun _ => (some 0 : Option ℚ))), f1) := by
  unfold bcmStep
  have herr := fits_none_oracle acc.2 symptom symptoms
  cases hfit : fit_multilevel_models oracleNone acc.2 symptom symptoms with
  | mk r f1 =>
      rw [hfit] at herr
      dsimp at herr
      subst herr
      exact ⟨f1, rfl⟩

theorem setRow_labels (x : String) :
    ∀ (ps : List (String × Option ℚ)) (M : CoefMatrix),
      (ps.foldl (fun M1 q => M1.set x q.1 q.2) M).index = M.index ∧
      (ps.foldl (fun M1 q => M1.set x q.1 q.2) M).cols = M.cols := by
  intro ps
  induction ps with
  | nil => intro M; exact ⟨rfl, rfl⟩
  | cons q rest ih =>
      intro M
      rw [List.foldl_cons]
      exact ih (M.set x q.1 q.2)

theorem setRow_dims (x : String) :
    ∀ (ps : List (String × Option ℚ)) (M : CoefMatrix),
      M.entries.length = M.index.length →
      (∀ row ∈ M.entries, row.length = M.cols.length) →
      ((ps.foldl (fun M1 q => M1.set x q.1 q.2) M).entries.length
         = (ps.foldl (fun M1 q => M1.set x q.1 q.2) M).index.length ∧
       (∀ row ∈ (ps.foldl (fun M1 q => M1.set x q.1 q.2) M).entries,
          row.length = (ps.foldl (fun M1 q => M1.set x q.1 q.2) M).cols.length)) := by
  intro ps
  induction ps with
  | nil => intro M h1 h2; exact ⟨h1, h2⟩
  | cons q rest ih =>
      intro M h1 h2
      rw [List.foldl_cons]
      obtain ⟨d1, d2⟩ := set_dims M x q.1 q.2 h1 h2
      exact ih (M.set x q.1 q.2) d1 d2

theorem initCoefMatrix_row_lengths (symptoms : List String) :
    ∀ row ∈ (initCoefMatrix symptoms).entries, row.length = symptoms.length := by
  intro row hrow
  rcases List.mem_map.1 hrow with ⟨_, _, hr⟩
  rw [← hr, List.length_map]

theorem bcm_fold_zero (symptoms : List String) (hnd : symptoms.Nodup) :
    ∀ (L : List String) (acc : CoefMatrix × Frame),
      acc.1.index = symptoms → acc.1.cols = symptoms →
      acc.1.entries.length = acc.1.index.length →
      (∀ row ∈ acc.1.entries, row.length = acc.1.cols.length) →
      (∀ s ∈ symptoms, s ∉ L → ∀ p ∈ symptoms, acc.1.get s p = some 0) →
      ∀ s ∈ symptoms, ∀ p ∈ symptoms,
        (L.foldl (bcmStep oracleNone symptoms) acc).1.get s p = some 0 := by
  intro L
  induction L with
  | nil =>
      intro acc _ _ _ _ hdone s hs p hp
      exact hdone s hs (by simp) p hp
  | cons x rest ih =>
      intro acc h1 h2 h3 h4 hdone s hs p hp
      rw [List.foldl_cons]
      obtain ⟨f1, hstep⟩ := bcmStep_none symptoms acc x
      rw [hstep]
      have hps : symptoms.zip (symptoms.map (fun _ => (some 0 : Option ℚ)))
          = symptoms.map (fun a => (a, (some 0 : Option ℚ))) := zip_self_map _ _
      have hpsfst : ((symptoms.zip (symptoms.map (fun _ => (some 0 : Option ℚ)))).map
          Prod.fst).Nodup := by
        rw [hps, List.map_map]
        have hco : (Prod.fst ∘ fun a : String => (a, (some 0 : Option ℚ))) = id := rfl
        rw [hco, List.map_id]
        exact hnd
      obtain ⟨l1, l2⟩ := setRow_labels x
        (symptoms.zip (symptoms.map (fun _ => (some 0 : Option ℚ)))) acc.1
      obtain ⟨d1, d2⟩ := setRow_dims x
        (symptoms.zip (symptoms.map (fun _ => (some 0 : Option ℚ)))) acc.1 h3 h4
      apply ih ((setRowVals acc.1 x symptoms
          (symptoms.map (fun _ => (some 0 : Option ℚ)))), f1)
      · show (setRowVals _ _ _ _).index = symptoms
        unfold setRowVals
        rw [l1, h1]
      · show (setRowVals _ _ _ _).cols = symptoms
        unfold setRowVals
        rw [l2, h2]
      · exact d1
      · exact d2
      · intro s2 hs2 hs2rest p2 hp2
        by_cases hsx : s2 = x
        · subst hsx
          show (setRowVals _ _ _ _).get s2 p2 = some 0
          unfold setRowVals
          have hpr : (p2, (some 0 : Option ℚ)) ∈ symptoms.zip
              (symptoms.map (fun _ => (some 0 : Option ℚ))) := by
            rw [hps]
            exact List.mem_map_of_mem _ hp2
          have := setRow_get_self s2
            (symptoms.zip (symptoms.map (fun _ => (some 0 : Option ℚ)))) acc.1
            hpsfst (by rw [h1]; exact hs2)
            (by
              intro pr hprm
              rw [hps] at hprm
              rcases List.mem_map.1 hprm with ⟨a, ha, hrw⟩
              rw [← hrw, h2]
              exact ha)
            h3 h4 (p2, some 0) hpr
          exact this
        · show (setRowVals _ _ _ _).get s2 p2 = some 0
          unfold setRowVals
          rw [setRow_get_other x _ acc.1 s2 p2 hsx]
          refine hdone s2 hs2 ?_ p2 hp2
          intro hmem
          rcases List.mem_cons.1 hmem with heq | hmem2
          · exact hsx heq
          · exact hs2rest hmem2
      · exact hs
      · exact hp

/-- C4 (amended): the two coefficient-matrix builders disagree on the
row policy for failed fits.  In the services pipeline
(`generate_person_specific_network`), when every fit fails the whole
matrix stays the absent-value marker — a failed outcome's row is
all-absent, never zero.  In `analyze_network.build_coef_matrix` the
caught exception branch instead writes the number zero across the
failed outcome's entire row, so there a failed estimate is
indistinguishable from a genuinely estimated zero. -/
theorem failed_fit_row_policy (patient_id : String) (df : Frame)
    (symptoms : List String) (hnd : symptoms.Nodup) :
    (∀ M f1, buildCoefMatrixPSN oracleNone df symptoms = Except.ok (M, f1) →
       ∀ s p, M.get s p = none) ∧
    (∀ M, build_coef_matrix oracleNone patient_id df symptoms = Except.ok M →
       ∀ s ∈ symptoms, ∀ p ∈ symptoms, M.get s p = some 0) := by
  constructor
  · intro M f1 hok
    exact psn_fold_allnone symptoms symptoms (initCoefMatrix symptoms, df)
      (fun s p => get_init symptoms s p) M f1 hok
  · intro M hok s hs p hp
    unfold build_coef_matrix at hok
    cases hfil : filterEq df "PatientID" patient_id with
    | error e =>
        rw [hfil] at hok
        simp only [Except.bind, bind, Except.instMonad] at hok
        cases hok
    | ok filtered =>
        rw [hfil] at hok
        simp only [Except.bind, bind, Except.instMonad] at hok
        cases hsort : sort_values filtered "Date" with
        | error e =>
            rw [hsort] at hok
            simp only [Except.bind] at hok
            cases hok
        | ok dfp =>
            rw [hsort] at hok
            simp only [Except.bind] at hok
            cases hfold : symptoms.foldl (bcmStep oracleNone symptoms)
                (initCoefMatrix symptoms, dfp) with
            | mk M2 f2 =>
                rw [hfold] at hok
                simp only [pure, Except.pure, Except.ok.injEq] at hok
                obtain ⟨i1, i2, i3, _⟩ := initCoefMatrix_inv symptoms
                have hz := bcm_fold_zero symptoms hnd symptoms
                  (initCoefMatrix symptoms, dfp) i1 i2 (by rw [i1]; exact i3)
                  (by
                    intro row hrow
                    rw [i2]
                    exact initCoefMatrix_row_lengths symptoms row hrow)
                  (fun s2 hs2 hnot _ _ => absurd hs2 hnot)
                  s hs p hp
                rw [hfold] at hz
                dsimp at hz
                rw [← hok]
                exact hz

/-- A 7-row frame with patient and date columns for `build_coef_matrix`. -/
def dfB : Frame :=
  { cols := ["PatientID", "Date", "a", "b"],
    rows := (List.range 7).map (fun k =>
      [Cell.str "P1", Cell.num k, Cell.num k, Cell.num (k + 1)]) }

/-- Counterexample for C4 as stated: with every fit failing,
`build_coef_matrix` returns a matrix whose cells are the number zero —
not the absent-value marker — so a failed estimate reads exactly like an
estimated zero coefficient. -/
theorem build_zero_row_counterexample :
    (match build_coef_matrix oracleNone "P1" dfB ["a", "b"] with
      | Except.ok M => M.get "a" "b"
      | Except.error _ => none) = some 0 ∧
    (some (0 : ℚ) : Option ℚ) ≠ none := by
  exact ⟨rfl, by decide⟩

/-- Witness for C4 at a concrete frame and symptom list. -/
theorem failed_fit_row_policy_witness :
    (["a", "b"] : List String).Nodup ∧
    ((∀ M f1, buildCoefMatrixPSN oracleNone dfB ["a", "b"] = Except.ok (M, f1) →
       ∀ s p, M.get s p = none) ∧
     (∀ M, build_coef_matrix oracleNone "P1" dfB ["a", "b"] = Except.ok M →
       ∀ s ∈ (["a", "b"] : List String), ∀ p ∈ (["a", "b"] : List String),
         M.get s p = some 0)) :=
  ⟨by decide, failed_fit_row_policy "P1" dfB ["a", "b"] (by decide)⟩

/-!
Row counting for a series with one interior absent value: the lag loop
plus `dropna` removes the first row, the absent row and its successor.
-/

theorem countP_not_eq (p : Nat → Bool) :
    ∀ l : List Nat, l.countP (fun k => !p k) = l.length - l.countP p := by
  intro l
  induction l with
  | nil => rfl
  | cons a rest ih =>
      rw [List.countP_cons, List.countP_cons, List.length_cons, ih]
      have hle := List.countP_le_length p (l := rest)
      by_cases h : p a
      · rw [if_pos h, if_neg (by rw [h]; exact Bool.false_ne_true)]
        omega
      · have h2 : p a = false := by
          rw [← Bool.not_eq_true]
          exact h
        rw [if_neg h, if_pos (by rw [h2]; rfl)]
        omega

theorem countP_eq_single (a : Nat) :
    ∀ n : Nat, (List.range n).countP (fun k => k == a)
      = if a < n then 1 else 0 := by
  intro n
  induction n with
  | zero => simp
  | succ m ih =>
      rw [List.range_succ, List.countP_append, ih]
      simp only [List.countP_cons, List.countP_nil, beq_iff_eq]
      split_ifs <;> omega

theorem countP_or_three (a b c : Nat) :
    ∀ l : List Nat,
      a ≠ b → a ≠ c → b ≠ c →
      l.countP (fun k => k == a || k == b || k == c)
        = l.countP (fun k => k == a) + l.countP (fun k => k == b)
          + l.countP (fun k => k == c) := by
  intro l hab hac hbc
  induction l with
  | nil => rfl
  | cons x rest ih =>
      simp only [List.countP_cons, ih, beq_iff_eq, Bool.or_eq_true]
      split_ifs <;> omega

theorem range_countP_not_three (n i : Nat) (h1 : 1 ≤ i) (h2 : i + 1 < n) :
    (List.range n).countP (fun k => !(k == 0 || k == i || k == (i + 1)))
      = n - 3 := by
  rw [countP_not_eq, List.length_range,
    countP_or_three 0 i (i + 1) (List.range n) (by omega) (by omega) (by omega),
    countP_eq_single, countP_eq_single, countP_eq_single]
  rw [if_pos (show 0 < n by omega), if_pos (show i < n by omega),
    if_pos (show i + 1 < n by omega)]

theorem range_countP_not_one (n : Nat) (h : 1 ≤ n) :
    (List.range n).countP (fun k => !(k == 0)) = n - 1 := by
  rw [countP_not_eq, List.length_range, countP_eq_single]
  rw [if_pos (show 0 < n by omega)]

theorem cons_map_range (c : Cell) (g : Nat → Cell) (m : Nat) :
    c :: (List.range m).map g
      = (List.range (m + 1)).map (fun k => if k = 0 then c else g (k - 1)) := by
  rw [List.range_succ_eq_map, List.map_cons, List.map_map]
  refine congrArg₂ List.cons ?_ ?_
  · simp
  · apply List.map_congr_left
    intro a _
    simp

theorem shift1_map_range (g : Nat → Cell) (m : Nat) :
    shift1 ((List.range (m + 1)).map g)
      = (List.range (m + 1)).map (fun k => if k = 0 then Cell.na else g (k - 1)) := by
  have h1 : (List.range (m + 1)).map g
      = g 0 :: (List.range m).map (g ∘ Nat.succ) := by
    rw [List.range_succ_eq_map, List.map_cons, List.map_map]
  rw [h1]
  show Cell.na :: (g 0 :: (List.range m).map (g ∘ Nat.succ)).dropLast = _
  rw [← h1, ← List.map_dropLast]
  have h3 : (List.range (m + 1)).dropLast = List.range m := by
    rw [List.range_succ]
    exact List.dropLast_concat
  rw [h3]
  exact cons_map_range Cell.na g m

theorem addLagCols_cons_some (f : Frame) (p : String) (rest : List String)
    (s : List Cell) (h : f.getCol p = some s) :
    addLagCols f (p :: rest)
      = addLagCols (f.setCol (p ++ "_lag") (shift1 s)) rest := by
  conv_lhs => rw [addLagCols]
  rw [h]

theorem setCol_fresh_map_range (f : Frame) (c : String) (n : Nat)
    (rf : Nat → List Cell) (sf : Nat → Cell)
    (hc : f.colIdx c = none) (hrows : f.rows = (List.range n).map rf) :
    f.setCol c ((List.range n).map sf)
      = { cols := f.cols ++ [c],
          rows := (List.range n).map (fun k => rf k ++ [sf k]) } := by
  unfold Frame.setCol
  rw [hc]
  rw [hrows, List.zip_map', List.map_map]
  rfl

/-- A single-subject series of n observations over symptoms a and b in
which symptom a is absent exactly at position i (and nowhere when
i ≥ n), with arbitrary observed values v and w. -/
def c10Frame (n i : Nat) (v w : Nat → ℚ) : Frame :=
  { cols := ["PatientID", "Timestamp", "a", "b"],
    rows := (List.range n).map (fun (k : Nat) =>
      [Cell.str "P1", Cell.num k,
       if k = i then Cell.na else Cell.num (v k),
       Cell.num (w k)]) }

theorem addLagCols_c10_rows (i : Nat) (v w : Nat → ℚ) (m : Nat) :
    (addLagCols (c10Frame (m + 1) i v w) ["a", "b"]).1.rows
      = (List.range (m + 1)).map (fun (k : Nat) =>
          ([Cell.str "P1", Cell.num k,
            if k = i then Cell.na else Cell.num (v k),
            Cell.num (w k)] ++
           [if k = 0 then Cell.na
            else if k - 1 = i then Cell.na else Cell.num (v (k - 1))]) ++
          [if k = 0 then Cell.na else Cell.num (w (k - 1))]) := by
  have hga : (c10Frame (m + 1) i v w).getCol "a"
      = some ((List.range (m + 1)).map
          (fun (k : Nat) => if k = i then Cell.na else Cell.num (v k))) := by
    unfold Frame.getCol Frame.colIdx c10Frame
    dsimp only
    rw [show idxOfCol "a" ["PatientID", "Timestamp", "a", "b"] = some 2 from rfl]
    dsimp only [Option.map]
    rw [List.map_map]
    rfl
  have hF1 : (c10Frame (m + 1) i v w).setCol ("a" ++ "_lag")
      (shift1 ((List.range (m + 1)).map
        (fun (k : Nat) => if k = i then Cell.na else Cell.num (v k))))
      = { cols := ["PatientID", "Timestamp", "a", "b", "a_lag"],
          rows := (List.range (m + 1)).map (fun (k : Nat) =>
            [Cell.str "P1", Cell.num k,
             if k = i then Cell.na else Cell.num (v k),
             Cell.num (w k)] ++
            [if k = 0 then Cell.na
             else if k - 1 = i then Cell.na else Cell.num (v (k - 1))]) } := by
    rw [shift1_map_range]
    exact setCol_fresh_map_range _ _ (m + 1)
      (fun (k : Nat) =>
        [Cell.str "P1", Cell.num k,
         if k = i then Cell.na else Cell.num (v k),
         Cell.num (w k)])
      (fun (k : Nat) =>
        if k = 0 then Cell.na
        else if k - 1 = i then Cell.na else Cell.num (v (k - 1)))
      rfl rfl
  have hgb : ((c10Frame (m + 1) i v w).setCol ("a" ++ "_lag")
      (shift1 ((List.range (m + 1)).map
        (fun (k : Nat) => if k = i then Cell.na else Cell.num (v k))))).getCol "b"
      = some ((List.range (m + 1)).map (fun (k : Nat) => Cell.num (w k))) := by
    rw [hF1]
    unfold Frame.getCol Frame.colIdx
    dsimp only
    rw [show idxOfCol "b" ["PatientID", "Timestamp", "a", "b", "a_lag"]
      = some 3 from rfl]
    dsimp only [Option.map]
    rw [List.map_map]
    rfl
  have hF2 : (((c10Frame (m + 1) i v w).setCol ("a" ++ "_lag")
      (shift1 ((List.range (m + 1)).map
        (fun (k : Nat) => if k = i then Cell.na else Cell.num (v k))))).setCol
      ("b" ++ "_lag")
      (shift1 ((List.range (m + 1)).map (fun (k : Nat) => Cell.num (w k)))))
      = { cols := ["PatientID", "Timestamp", "a", "b", "a_lag", "b_lag"],
          rows := (List.range (m + 1)).map (fun (k : Nat) =>
            ([Cell.str "P1", Cell.num k,
              if k = i then Cell.na else Cell.num (v k),
              Cell.num (w k)] ++
             [if k = 0 then Cell.na
              else if k - 1 = i then Cell.na else Cell.num (v (k - 1))]) ++
            [if k = 0 then Cell.na else Cell.num (w (k - 1))]) } := by
    rw [hF1, shift1_map_range]
    exact setCol_fresh_map_range _ _ (m + 1)
      (fun (k : Nat) =>
        [Cell.str "P1", Cell.num k,
         if k = i then Cell.na else Cell.num (v k),
         Cell.num (w k)] ++
        [if k = 0 then Cell.na
         else if k - 1 = i then Cell.na else Cell.num (v (k - 1))])
      (fun (k : Nat) => if k = 0 then Cell.na else Cell.num (w (k - 1)))
      rfl rfl
  rw [addLagCols_cons_some _ _ _ _ hga, addLagCols_cons_some _ _ _ _ hgb, hF2]
  rfl

theorem countP_congr_list (p q : Nat → Bool) :
    ∀ l : List Nat, (∀ a ∈ l, p a = q a) → l.countP p = l.countP q := by
  intro l
  induction l with
  | nil => intro _; rfl
  | cons a rest ih =>
      intro h
      rw [List.countP_cons, List.countP_cons, h a (List.mem_cons_self a rest),
        ih (fun b hb => h b (List.mem_cons_of_mem a hb))]

theorem c10_row_na (i k : Nat) (v w : Nat → ℚ) (h1 : 1 ≤ i) :
    (!(List.any (([Cell.str "P1", Cell.num (k : ℚ),
        if k = i then Cell.na else Cell.num (v k),
        Cell.num (w k)] ++
       [if k = 0 then Cell.na
        else if k - 1 = i then Cell.na else Cell.num (v (k - 1))]) ++
      [if k = 0 then Cell.na else Cell.num (w (k - 1))]) Cell.isNA))
    = !(k == 0 || k == i || k == (i + 1)) := by
  by_cases hk0 : k = 0
  · rw [if_neg (show ¬ k = i by omega), if_pos hk0, if_pos hk0,
      show (k == 0) = true from by simpa using hk0]
    rfl
  · by_cases hki : k = i
    · rw [if_pos hki, if_neg hk0, if_neg (show ¬ k - 1 = i by omega), if_neg hk0,
        show (k == i) = true from by simpa using hki, Bool.or_true]
      rfl
    · by_cases hki1 : k = i + 1
      · rw [if_neg hki, if_neg hk0, if_pos (show k - 1 = i by omega), if_neg hk0,
          show (k == i + 1) = true from by simpa using hki1, Bool.or_true]
        rfl
      · rw [if_neg hki, if_neg hk0, if_neg (show ¬ k - 1 = i by omega), if_neg hk0,
          show (k == 0) = false from by simpa using hk0,
          show (k == i) = false from by simpa using hki,
          show (k == i + 1) = false from by simpa using hki1]
        rfl

theorem c10_row_na_complete (n k : Nat) (v w : Nat → ℚ) (hk : k < n) :
    (!(List.any (([Cell.str "P1", Cell.num (k : ℚ),
        if k = n then Cell.na else Cell.num (v k),
        Cell.num (w k)] ++
       [if k = 0 then Cell.na
        else if k - 1 = n then Cell.na else Cell.num (v (k - 1))]) ++
      [if k = 0 then Cell.na else Cell.num (w (k - 1))]) Cell.isNA))
    = !(k == 0) := by
  by_cases hk0 : k = 0
  · rw [if_neg (show ¬ k = n by omega), if_pos hk0, if_pos hk0,
      show (k == 0) = true from by simpa using hk0]
    rfl
  · rw [if_neg (show ¬ k = n by omega), if_neg hk0,
      if_neg (show ¬ k - 1 = n by omega), if_neg hk0,
      show (k == 0) = false from by simpa using hk0]
    rfl

/-- C10: after the lag loop, `dropna` keeps exactly the rows with no
absent cell, so one absent symptom value at an interior position `i` of
an `n`-row single-subject series costs two extra rows — row `i` itself
and row `i + 1`, whose lagged copy of that symptom is absent — leaving
`n - 3` usable rows (the first row is always dropped because every lag
cell of row 0 is absent); the same series with every value present
leaves `n - 1` rows, so the spec's `series length - 1` relation holds
only for complete series. -/
theorem lag_dropna_row_count (n i : Nat) (v w : Nat → ℚ)
    (h1 : 1 ≤ i) (h2 : i + 1 < n) :
    ((addLagCols (c10Frame n i v w) ["a", "b"]).1.dropna.rows.length = n - 3)
    ∧ ((addLagCols (c10Frame n n v w) ["a", "b"]).1.dropna.rows.length
        = n - 1) := by
  obtain ⟨m, rfl⟩ : ∃ m, n = m + 1 := ⟨n - 1, by omega⟩
  refine ⟨?_, ?_⟩
  · unfold Frame.dropna
    dsimp only
    rw [addLagCols_c10_rows i v w m, ← List.countP_eq_length_filter,
      List.countP_map]
    rw [countP_congr_list
      ((fun r => !List.any r Cell.isNA) ∘ (fun (k : Nat) =>
        ([Cell.str "P1", Cell.num (k : ℚ),
          if k = i then Cell.na else Cell.num (v k),
          Cell.num (w k)] ++
         [if k = 0 then Cell.na
          else if k - 1 = i then Cell.na else Cell.num (v (k - 1))]) ++
        [if k = 0 then Cell.na else Cell.num (w (k - 1))]))
      (fun k => !(k == 0 || k == i || k == (i + 1)))
      (List.range (m + 1))
      (fun k _ => c10_row_na i k v w h1)]
    exact range_countP_not_three (m + 1) i h1 h2
  · unfold Frame.dropna
    dsimp only
    rw [addLagCols_c10_rows (m + 1) v w m, ← List.countP_eq_length_filter,
      List.countP_map]
    rw [countP_congr_list
      ((fun r => !List.any r Cell.isNA) ∘ (fun (k : Nat) =>
        ([Cell.str "P1", Cell.num (k : ℚ),
          if k = m + 1 then Cell.na else Cell.num (v k),
          Cell.num (w k)] ++
         [if k = 0 then Cell.na
          else if k - 1 = m + 1 then Cell.na else Cell.num (v (k - 1))]) ++
        [if k = 0 then Cell.na else Cell.num (w (k - 1))]))
      (fun k => !(k == 0))
      (List.range (m + 1))
      (fun k hk => c10_row_na_complete (m + 1) k v w (List.mem_range.mp hk))]
    exact range_countP_not_one (m + 1) (by omega)

theorem lag_dropna_row_count_witness :
    (1 ≤ 2 ∧ 2 + 1 < 6) ∧
    (((addLagCols (c10Frame 6 2 (fun _ => 1) (fun _ => 2))
        ["a", "b"]).1.dropna.rows.length = 6 - 3)
     ∧ ((addLagCols (c10Frame 6 6 (fun _ => 1) (fun _ => 2))
        ["a", "b"]).1.dropna.rows.length = 6 - 1)) :=
  ⟨⟨by decide, by decide⟩,
   lag_dropna_row_count 6 2 (fun _ => 1) (fun _ => 2) (by decide) (by decide)⟩
